import Mathlib

/-!
Verification development for the `materialize-base` repository.

The TypeScript sources under `src/` are shallowly embedded as executable Lean
definitions.  JavaScript numbers are modelled as `Option Q` over an exact
rational type `Q` (`none` stands for a non-finite result, i.e.
`NaN`/`±Infinity`); machine dates are modelled by their millisecond time
value; fallible code returns `Except`.  Host standard
library functions that the sources call (`String.prototype.trim`, `Number`,
`Date` parsing and `toISOString`) are modelled by explicit Lean functions next
to the embedded code that uses them.
-/

namespace MBase

instance {ε α : Type} [DecidableEq ε] [DecidableEq α] : DecidableEq (Except ε α) :=
  fun a b =>
    match a, b with
    | .ok x, .ok y =>
      if h : x = y then .isTrue (by rw [h]) else .isFalse (by simp [h])
    | .error x, .error y =>
      if h : x = y then .isTrue (by rw [h]) else .isFalse (by simp [h])
    | .ok _, .error _ => .isFalse (by simp)
    | .error _, .ok _ => .isFalse (by simp)

/-! ### Character and string helpers (models of the host string primitives) -/

/-- The single-quote character `'`. -/
def chSQ : Char := Char.ofNat 39

/-- The double-quote character `"`. -/
def chDQ : Char := Char.ofNat 34

/-- The backtick character. -/
def chBT : Char := Char.ofNat 96

/-- The backslash character. -/
def chBS : Char := Char.ofNat 92

/-- Model of the JavaScript `\s` / `trim` whitespace class (ASCII part plus
NBSP and BOM; the sources only ever meet the ASCII part). -/
def jsIsWhite (c : Char) : Bool :=
  c = ' ' || c = Char.ofNat 9 || c = Char.ofNat 10 || c = Char.ofNat 11 ||
  c = Char.ofNat 12 || c = Char.ofNat 13 || c = Char.ofNat 160 ||
  c = Char.ofNat 65279

/-- Drop leading JS whitespace. -/
def dropWhite : List Char → List Char
  | [] => []
  | c :: cs => if jsIsWhite c then dropWhite cs else c :: cs

/-- Model of `String.prototype.trim` on a character list. -/
def trimChars (s : List Char) : List Char :=
  (dropWhite (dropWhite s).reverse).reverse

/-- Model of `String.prototype.trim`. -/
def jsTrim (s : String) : String :=
  String.mk (trimChars s.data)

/-- `leadsWith pat s` is true when `pat` is an initial segment of `s`. -/
def leadsWith : List Char → List Char → Bool
  | [], _ => true
  | _ :: _, [] => false
  | p :: ps, c :: cs => p = c && leadsWith ps cs

/-- Case-insensitive (ASCII `toLowerCase`) version of `leadsWith`. -/
def ciLeadsWith : List Char → List Char → Bool
  | [], _ => true
  | _ :: _, [] => false
  | p :: ps, c :: cs => p.toLower = c.toLower && ciLeadsWith ps cs

/-- `occursInL pat s`: `pat` occurs as a contiguous run inside `s`. -/
def occursInL (pat : List Char) : List Char → Bool
  | [] => leadsWith pat []
  | c :: cs => leadsWith pat (c :: cs) || occursInL pat cs

/-- `occursIn pat s`: substring occurrence test, modelling `String.includes`. -/
def occursIn (pat s : String) : Bool :=
  occursInL pat.data s.data

/-- First-binding association lookup (models own-property access on a plain
JS object, whose keys are unique). -/
def alookup {α : Type} : List (String × α) → String → Option α
  | [], _ => none
  | (k, v) :: rest, key => if k = key then some v else alookup rest key

/-- String membership in a list (models `Set.has` / array membership). -/
def memStr (k : String) : List String → Bool
  | [] => false
  | x :: xs => x = k || memStr k xs

/-- Model of `Array.prototype.join(", ")`. -/
def joinComma : List String → String
  | [] => ""
  | [x] => x
  | x :: xs => x ++ ", " ++ joinComma xs

/-- ASCII lower-casing of a character list (model of `toLowerCase`). -/
def lowerChars (s : List Char) : List Char :=
  s.map Char.toLower

/-- `[A-Za-z_$]`: first character of the identifier pattern in
`expressions.ts`. -/
def isIdentStart (c : Char) : Bool :=
  (c ≥ 'A' && c ≤ 'Z') || (c ≥ 'a' && c ≤ 'z') || c = '_' || c = '$'

/-- `IDENTIFIER_CHAR_PATTERN = /[A-Za-z0-9_$]/` from `expressions.ts`. -/
def isIdentChar (c : Char) : Bool :=
  isIdentStart c || (c ≥ '0' && c ≤ '9')

/-- `isIdentifierCharacter` from `expressions.ts`: an absent character
(`undefined`) is not an identifier character. -/
def isIdentifierCharacter : Option Char → Bool
  | none => false
  | some c => isIdentChar c

/-! ### Exact rational numbers

Mathlib's `ℚ` does not reduce inside the kernel (its normalization uses
well-founded recursion), so the embedding carries its own normalized rational
type built from kernel-computable `Nat`/`Int` arithmetic.  All constructors go
through `Q.mk'`, which divides out the gcd, so two `Q` values are numerically
equal iff they are structurally equal. -/

/-- Fuel-driven Euclidean gcd (kernel-computable). -/
def gcdF : Nat → Nat → Nat → Nat
  | 0, _, b => b
  | f + 1, a, b => if a = 0 then b else gcdF f (b % a) a

/-- Greatest common divisor via `gcdF` with always-sufficient fuel. -/
def ngcd (a b : Nat) : Nat := gcdF (a + b + 1) a b

/-- Exact rational number: numerator and positive denominator, stored in
lowest terms. -/
structure Q where
  n : Int
  d : Nat
  deriving DecidableEq, Repr

/-- Normalizing constructor (callers never pass denominator 0). -/
def Q.mk' (num : Int) (den : Nat) : Q :=
  if den = 0 then ⟨0, 1⟩
  else
    let g := ngcd num.natAbs den
    ⟨num / (g : Int), den / g⟩

def Q.ofInt (n : Int) : Q := ⟨n, 1⟩

instance : OfNat Q n := ⟨⟨(n : Int), 1⟩⟩

def Q.add (a b : Q) : Q := Q.mk' (a.n * (b.d : Int) + b.n * (a.d : Int)) (a.d * b.d)

def Q.sub (a b : Q) : Q := Q.mk' (a.n * (b.d : Int) - b.n * (a.d : Int)) (a.d * b.d)

def Q.mul (a b : Q) : Q := Q.mk' (a.n * b.n) (a.d * b.d)

def Q.neg (a : Q) : Q := ⟨-a.n, a.d⟩

instance : Add Q := ⟨Q.add⟩
instance : Sub Q := ⟨Q.sub⟩
instance : Mul Q := ⟨Q.mul⟩
instance : Neg Q := ⟨Q.neg⟩

/-- Floor to an integer (used to read a date time value). -/
def Q.floorI (a : Q) : Int := Int.fdiv a.n (a.d : Int)

/-! ### Decimal digits -/

def isDigitCh (c : Char) : Bool := c ≥ '0' && c ≤ '9'

def digitVal (c : Char) : Nat := c.toNat - '0'.toNat

/-- Numeric value of a string of decimal digits. -/
def digitsToNat : List Char → Nat
  | [] => 0
  | c :: cs => digitsToNat cs + digitVal c * 10 ^ cs.length

/-- Exact rational value of `intPart.fracPart` as produced by
`Number.parseFloat` on a `-?\d+(\.\d+)?` token. -/
def decimalValue (sign : Bool) (intPart fracPart : List Char) : Q :=
  let scale : Nat := 10 ^ fracPart.length
  let mag : Q := Q.mk' ((digitsToNat intPart * scale + digitsToNat fracPart : Nat) : Int) scale
  if sign then -mag else mag

/-! ## Duration parser (`src/duration.ts`)

`DURATION_PATTERN` is the case-insensitive regex
`(-?\d+(?:\.\d+)?)\s*(years?|y|months?|M|weeks?|w|days?|d|hours?|h|minutes?|mins?|min|m|seconds?|secs?|sec|s)`
applied with `exec` in a `/g` loop.  A JS regex alternation takes the first
alternative that matches, so the group is equivalent to trying the following
literal tokens in order, case-insensitively (each `X?` expands into the form
with the optional letter first, matching the greedy engine). -/

def durationUnitAlternatives : List (List Char) :=
  ["years".data, "year".data, "y".data,
   "months".data, "month".data, "M".data,
   "weeks".data, "week".data, "w".data,
   "days".data, "day".data, "d".data,
   "hours".data, "hour".data, "h".data,
   "minutes".data, "minute".data, "mins".data, "min".data, "min".data,
   "m".data,
   "seconds".data, "second".data, "secs".data, "sec".data, "sec".data,
   "s".data]

def msSecond : Q := Q.ofInt 1000
def msMinute : Q := Q.ofInt 60000
def msHour : Q := Q.ofInt 3600000
def msDay : Q := Q.ofInt 86400000
def msWeek : Q := Q.ofInt 604800000
def msMonth : Q := Q.ofInt 2592000000
def msYear : Q := Q.ofInt 31536000000

/-- `DURATION_UNIT_MULTIPLIERS` from `src/duration.ts`, in source order. -/
def DURATION_UNIT_MULTIPLIERS : List (String × Q) :=
  [("y", msYear), ("year", msYear), ("years", msYear),
   ("M", msMonth), ("month", msMonth), ("months", msMonth),
   ("w", msWeek), ("week", msWeek), ("weeks", msWeek),
   ("d", msDay), ("day", msDay), ("days", msDay),
   ("h", msHour), ("hour", msHour), ("hours", msHour),
   ("m", msMinute), ("min", msMinute), ("mins", msMinute),
   ("minute", msMinute), ("minutes", msMinute),
   ("s", msSecond), ("sec", msSecond), ("secs", msSecond),
   ("second", msSecond), ("seconds", msSecond)]

/-- Match the unit group of `DURATION_PATTERN` at the head of `s`: first
alternative (in regex order) that matches case-insensitively wins; the result
is the length of the consumed slice. -/
def matchUnitAt (s : List Char) : Option Nat :=
  (durationUnitAlternatives.find? (fun p => ciLeadsWith p s)).map List.length

/-- Anchored match of `DURATION_PATTERN` at the head of `s`.  Returns the
number token, the unit slice (original case) and the total number of consumed
characters.  Greedy matching with no rescuing backtracking (shrinking the
digit runs always places a digit or dot where the unit must start). -/
def tryMatchAt (s : List Char) : Option (List Char × List Char × Nat) :=
  let (sign, s1) := match s with
    | '-' :: rest => (true, rest)
    | _ => (false, s)
  let intDigits := s1.takeWhile isDigitCh
  if intDigits.isEmpty then none
  else
    let s2 := s1.drop intDigits.length
    let (fracDigits, s3) := match s2 with
      | '.' :: rest =>
        let f := rest.takeWhile isDigitCh
        if f.isEmpty then (([] : List Char), s2)
        else ('.' :: f, rest.drop f.length)
      | _ => ([], s2)
    let ws := s3.takeWhile jsIsWhite
    let s4 := s3.drop ws.length
    match matchUnitAt s4 with
    | none => none
    | some ulen =>
      let numTok := (if sign then ['-'] else []) ++ intDigits ++ fracDigits
      some (numTok, s4.take ulen, numTok.length + ws.length + ulen)

/-- `exec` scanning: find the first position in `s` where `DURATION_PATTERN`
matches; returns the gap before the match, the number token, the unit slice
and the rest of the input after the match. -/
def scanMatch : List Char → Option (List Char × List Char × List Char × List Char)
  | [] => none
  | c :: cs =>
    match tryMatchAt (c :: cs) with
    | some (num, unit, len) => some ([], num, unit, (c :: cs).drop len)
    | none =>
      match scanMatch cs with
      | some (gap, num, unit, rest) => some (c :: gap, num, unit, rest)
      | none => none

/-- `parseFloat` on a `-?\d+(\.\d+)?` token (always finite in this model). -/
def parseFloatTok (tok : List Char) : Q :=
  match tok with
  | '-' :: rest =>
    let ip := rest.takeWhile isDigitCh
    let fp := (rest.drop (ip.length + 1)).takeWhile isDigitCh
    decimalValue true ip fp
  | _ =>
    let ip := tok.takeWhile isDigitCh
    let fp := (tok.drop (ip.length + 1)).takeWhile isDigitCh
    decimalValue false ip fp

/-- `DURATION_UNIT_MULTIPLIERS.get(unitRaw) ?? get(unitRaw.toLowerCase())`. -/
def lookupMultiplier (unit : List Char) : Option Q :=
  match alookup DURATION_UNIT_MULTIPLIERS (String.mk unit) with
  | some m => some m
  | none => alookup DURATION_UNIT_MULTIPLIERS (String.mk (lowerChars unit))

/-- The `while ((exec = DURATION_PATTERN.exec(trimmed)) !== null)` loop of
`parseDuration`.  `fuel` bounds the number of iterations; the wrapper passes
`length + 1`, which always suffices because every match consumes at least one
character. -/
def durLoop (input : String) : Nat → List Char → Q → Bool → Except String Q
  | 0, _, _, _ => .error "duration model fuel exhausted"
  | n + 1, rem, total, matchedAny =>
    match scanMatch rem with
    | none =>
      if matchedAny = false then
        .error ("Unable to parse duration string \"" ++ input ++ "\".")
      else if rem.any (fun c => !jsIsWhite c) then
        .error ("Invalid trailing content \"" ++ String.mk (trimChars rem) ++
          "\" in \"" ++ input ++ "\".")
      else
        .ok total
    | some (gap, num, unit, rest) =>
      if gap.any (fun c => !jsIsWhite c) then
        .error ("Invalid duration segment \"" ++ String.mk (trimChars gap) ++
          "\" in \"" ++ input ++ "\".")
      else
        match lookupMultiplier unit with
        | none =>
          .error ("Unsupported duration unit \"" ++ String.mk unit ++
            "\" in \"" ++ input ++ "\".")
        | some mult =>
          durLoop input n rest (total + parseFloatTok num * mult) true

/-- `parseDuration` from `src/duration.ts`. -/
def parseDuration (input : String) : Except String Q :=
  let trimmed := trimChars input.data
  if trimmed.isEmpty then
    .error "duration() requires a non-empty string."
  else
    durLoop input (trimmed.length + 1) trimmed 0 false

/-- `tryParseDuration` from `src/duration.ts` (string case; non-strings are
handled at the call sites of the embedding). -/
def tryParseDuration (input : String) : Option Q :=
  match parseDuration input with
  | .ok v => some v
  | .error _ => none


/-! ## Calendar arithmetic (model of the host `Date`)

Standard civil-calendar conversions (Gregorian, proleptic), used to model the
host `Date` string parser and `Date.prototype.toISOString`. -/

/-- Days since 1970-01-01 to `(year, month, day)`. -/
def civilFromDays (z : Int) : Int × Int × Int :=
  let z' := z + 719468
  let era := Int.fdiv z' 146097
  let doe := z' - era * 146097
  let yoe := Int.fdiv (doe - Int.fdiv doe 1460 + Int.fdiv doe 36524 - Int.fdiv doe 146096) 365
  let y := yoe + era * 400
  let doy := doe - (365 * yoe + Int.fdiv yoe 4 - Int.fdiv yoe 100)
  let mp := Int.fdiv (5 * doy + 2) 153
  let d := doy - Int.fdiv (153 * mp + 2) 5 + 1
  let m := mp + (if mp < 10 then 3 else -9)
  (y + (if m ≤ 2 then 1 else 0), m, d)

/-- `(year, month, day)` to days since 1970-01-01. -/
def daysFromCivil (y m d : Int) : Int :=
  let y' := y - (if m ≤ 2 then 1 else 0)
  let era := Int.fdiv y' 400
  let yoe := y' - era * 400
  let mp := m + (if 2 < m then -3 else 9)
  let doy := Int.fdiv (153 * mp + 2) 5 + d - 1
  let doe := yoe * 365 + Int.fdiv yoe 4 - Int.fdiv yoe 100 + doy
  era * 146097 + doe - 719468

/-- Decimal digits of a natural number, most significant first. -/
def natToDigitsAux : Nat → Nat → List Char → List Char
  | 0, _, acc => acc
  | f + 1, n, acc =>
    if n < 10 then Char.ofNat (48 + n) :: acc
    else natToDigitsAux f (n / 10) (Char.ofNat (48 + n % 10) :: acc)

def natToDigits (n : Nat) : List Char := natToDigitsAux (n + 1) n []

def padZeros (w : Nat) (l : List Char) : List Char :=
  List.replicate (w - l.length) '0' ++ l

/-- Model of integer `toString`. -/
def intToStr (i : Int) : String :=
  if i < 0 then String.mk ('-' :: natToDigits (-i).toNat)
  else String.mk (natToDigits i.toNat)

/-- Model of `Date.prototype.toISOString` for an integral time value (years
0–9999; the expanded-year forms outside that range are not needed by the
sources' tests or the claims). -/
def isoOfMs (ms : Int) : String :=
  let days := Int.fdiv ms 86400000
  let rem := (ms - days * 86400000).toNat
  let ymd := civilFromDays days
  let hh := rem / 3600000
  let mi := rem % 3600000 / 60000
  let ss := rem % 60000 / 1000
  let mss := rem % 1000
  String.mk (padZeros 4 (natToDigits ymd.1.toNat) ++ '-' ::
    padZeros 2 (natToDigits ymd.2.1.toNat) ++ '-' ::
    padZeros 2 (natToDigits ymd.2.2.toNat) ++ 'T' ::
    padZeros 2 (natToDigits hh) ++ ':' ::
    padZeros 2 (natToDigits mi) ++ ':' ::
    padZeros 2 (natToDigits ss) ++ '.' ::
    padZeros 3 (natToDigits mss) ++ ['Z'])

/-- Read exactly `n` decimal digits from the head of `s`. -/
def readDigits (n : Nat) (s : List Char) : Option (Nat × List Char) :=
  let ds := s.take n
  if ds.length = n && ds.all isDigitCh then some (digitsToNat ds, s.drop n)
  else none

/-- Model of the host date parser (`new Date(string)`) restricted to the
ISO-8601 forms the sources exercise: `YYYY-MM-DD` (UTC midnight) optionally
followed by `THH:MM[:SS[.f[f[f]]]]Z`.  Other host-recognized inputs are out of
the model's scope and map to `none` (`NaN`). -/
def jsDateParse (s : String) : Option Int :=
  match readDigits 4 s.data with
  | none => none
  | some (y, r1) =>
    match r1 with
    | '-' :: r2 =>
      match readDigits 2 r2 with
      | none => none
      | some (mo, r3) =>
        match r3 with
        | '-' :: r4 =>
          match readDigits 2 r4 with
          | none => none
          | some (d, r5) =>
            if mo < 1 || 12 < mo || d < 1 || 31 < d then none
            else
              let base := daysFromCivil (y : Int) (mo : Int) (d : Int) * 86400000
              match r5 with
              | [] => some base
              | 'T' :: r6 =>
                match readDigits 2 r6 with
                | none => none
                | some (hh, r7) =>
                  match r7 with
                  | ':' :: r8 =>
                    match readDigits 2 r8 with
                    | none => none
                    | some (mi, r9) =>
                      if 23 < hh || 59 < mi then none
                      else
                        let timeBase := base + (hh : Int) * 3600000 + (mi : Int) * 60000
                        match r9 with
                        | ['Z'] => some timeBase
                        | ':' :: r10 =>
                          match readDigits 2 r10 with
                          | none => none
                          | some (ss, r11) =>
                            if 59 < ss then none
                            else
                              let secBase := timeBase + (ss : Int) * 1000
                              match r11 with
                              | ['Z'] => some secBase
                              | '.' :: r12 =>
                                let fs := r12.takeWhile isDigitCh
                                if fs.isEmpty || 3 < fs.length then none
                                else
                                  match r12.drop fs.length with
                                  | ['Z'] =>
                                    some (secBase +
                                      (digitsToNat fs * 10 ^ (3 - fs.length) : Nat))
                                  | _ => none
                              | _ => none
                        | _ => none
                  | _ => none
              | _ => none
        | _ => none
    | _ => none

/-! ## The embedded value domain

Primitives, bigints and dates (by millisecond time value, kept rational
because date-minus-duration may subtract a fractional number of
milliseconds).  Structured values (arrays, plain objects, functions, regexes)
participate in no claim and are omitted from the embedding. -/

inductive JsValue where
  | num : Option Q → JsValue
  | str : String → JsValue
  | bool : Bool → JsValue
  | vnull : JsValue
  | vundefined : JsValue
  | date : Q → JsValue
  | bigint : Int → JsValue
  deriving DecidableEq, Repr

/-- Model of JS truthiness (`Boolean(x)`). -/
def jsTruthy : JsValue → Bool
  | .num none => false
  | .num (some q) => q.n ≠ 0
  | .str s => s ≠ ""
  | .bool b => b
  | .vnull => false
  | .vundefined => false
  | .date _ => true
  | .bigint n => n ≠ 0

def hexDigitVal (c : Char) : Option Nat :=
  if isDigitCh c then some (digitVal c)
  else if c ≥ 'a' && c ≤ 'f' then some (c.toNat - 'a'.toNat + 10)
  else if c ≥ 'A' && c ≤ 'F' then some (c.toNat - 'A'.toNat + 10)
  else none

def radixToNat (radix : Nat) : List Char → Option Nat → Option Nat
  | [], acc => acc
  | c :: cs, acc =>
    match hexDigitVal c, acc with
    | some v, some a => if v < radix then radixToNat radix cs (some (a * radix + v)) else none
    | _, _ => none

/-- Signed scientific value `±mant * 10^e` as an exact rational. -/
def qOfScientific (neg : Bool) (mant : Nat) (e : Int) : Q :=
  let m : Int := if neg then -(mant : Int) else (mant : Int)
  if 0 ≤ e then Q.ofInt (m * 10 ^ e.toNat)
  else Q.mk' m (10 ^ (-e).toNat)

/-- Decimal part of the `Number(string)` grammar after the optional sign:
`digits [. digits?] [exp]` or `. digits [exp]` with `exp = (e|E)[±]digits`;
the whole input must be consumed. -/
def parseStrDecimal (neg : Bool) (s : List Char) : Option Q :=
  let ip := s.takeWhile isDigitCh
  let r1 := s.drop ip.length
  let withFrac : Option (List Char × List Char) :=
    match r1 with
    | '.' :: r2 =>
      let fp := r2.takeWhile isDigitCh
      if ip.isEmpty && fp.isEmpty then none
      else some (fp, r2.drop fp.length)
    | _ => if ip.isEmpty then none else some ([], r1)
  match withFrac with
  | none => none
  | some (fp, r3) =>
    let mant := digitsToNat ip * 10 ^ fp.length + digitsToNat fp
    match r3 with
    | [] => some (qOfScientific neg mant (-(fp.length : Int)))
    | e :: r4 =>
      if e = 'e' || e = 'E' then
        let (eneg, r5) := match r4 with
          | '-' :: r5 => (true, r5)
          | '+' :: r5 => (false, r5)
          | _ => (false, r4)
        let ed := r5.takeWhile isDigitCh
        if ed.isEmpty || r5.drop ed.length ≠ [] then none
        else
          let ev : Int := if eneg then -(digitsToNat ed : Int) else (digitsToNat ed : Int)
          some (qOfScientific neg mant (ev - (fp.length : Int)))
      else none

/-- Model of the host `Number(string)` conversion (`StringNumericLiteral`):
whitespace-only is `0`; hex/octal/binary integer literals; otherwise an
optionally signed decimal literal or `Infinity`.  `none` stands for a
non-finite outcome (`NaN`, and `±Infinity`, which the sources always reject
via `Number.isFinite` before use). -/
def jsNumberOfString (s : String) : Option Q :=
  let t := trimChars s.data
  if t.isEmpty then some (Q.ofInt 0)
  else if leadsWith ['0', 'x'] t || leadsWith ['0', 'X'] t then
    (radixToNat 16 (t.drop 2) (if (t.drop 2).isEmpty then none else some 0)).map
      (fun n => Q.ofInt (n : Int))
  else if leadsWith ['0', 'b'] t || leadsWith ['0', 'B'] t then
    (radixToNat 2 (t.drop 2) (if (t.drop 2).isEmpty then none else some 0)).map
      (fun n => Q.ofInt (n : Int))
  else if leadsWith ['0', 'o'] t || leadsWith ['0', 'O'] t then
    (radixToNat 8 (t.drop 2) (if (t.drop 2).isEmpty then none else some 0)).map
      (fun n => Q.ofInt (n : Int))
  else
    let (neg, r) := match t with
      | '-' :: r => (true, r)
      | '+' :: r => (false, r)
      | _ => (false, t)
    if r = "Infinity".data then none
    else parseStrDecimal neg r

/-- Simplified positional model of host number formatting: exact decimal
expansion, truncated after 40 fractional digits (host floats always terminate
well before that; no claim formats a non-integer). -/
def qToString (q : Q) : String :=
  let sgn : List Char := if q.n < 0 then ['-'] else []
  let na := q.n.natAbs
  if q.d = 1 then String.mk (sgn ++ natToDigits na)
  else
    let scaled := na * 10 ^ 40 / q.d
    let ipart := scaled / 10 ^ 40
    let fdigits := (padZeros 40 (natToDigits (scaled % 10 ^ 40))).reverse.dropWhile
      (fun c => c = '0')
    String.mk (sgn ++ natToDigits ipart ++ '.' :: fdigits.reverse)

/-- Model of host number `toString` on the `Option Q` number domain. -/
def jsNumToString : Option Q → String
  | none => "NaN"
  | some q => qToString q

/-- Model of host `ToString` for the embedded domain (for the string branch
of the host `+`; the `Date` case approximates the host's locale-dependent
`Date.prototype.toString` by the ISO rendering, a difference no claim
observes). -/
def jsToDisplayString : JsValue → String
  | .num v => jsNumToString v
  | .str s => s
  | .bool b => if b then "true" else "false"
  | .vnull => "null"
  | .vundefined => "undefined"
  | .date t => isoOfMs t.floorI
  | .bigint n => intToStr n

/-- `toNumeric` from `src/expressions.ts`: `Date` via `getTime()`, `bigint`
via `Number`, everything else via `Number(value)`. -/
def toNumeric : JsValue → Option Q
  | .date t => some t
  | .bigint n => some (Q.ofInt n)
  | .num v => v
  | .str s => jsNumberOfString s
  | .bool b => some (if b then Q.ofInt 1 else Q.ofInt 0)
  | .vnull => some (Q.ofInt 0)
  | .vundefined => none

/-- `toNullishAwareDuration` from `src/expressions.ts`. -/
def toNullishAwareDuration : JsValue → Option Q
  | .num (some q) => some q
  | .num none => none
  | .bigint n => some (Q.ofInt n)
  | .str s => tryParseDuration s
  | _ => none

def optAdd : Option Q → Option Q → Option Q
  | some a, some b => some (a + b)
  | _, _ => none

def optSub : Option Q → Option Q → Option Q
  | some a, some b => some (a - b)
  | _, _ => none

/-- Model of the host `+` (`nativeAdd` in `src/expressions.ts`) on the
embedded domain: string (or date, whose default `ToPrimitive` hint is string)
operands concatenate, bigints add, mixing bigint with a number is modelled as
`NaN` (the host throws, a case no claim reaches), everything else adds
numerically. -/
def nativeAdd (l r : JsValue) : JsValue :=
  match l, r with
  | .str a, _ => .str (a ++ jsToDisplayString r)
  | _, .str b => .str (jsToDisplayString l ++ b)
  | .date _, _ => .str (jsToDisplayString l ++ jsToDisplayString r)
  | _, .date _ => .str (jsToDisplayString l ++ jsToDisplayString r)
  | .bigint a, .bigint b => .bigint (a + b)
  | .bigint _, _ => .num none
  | _, .bigint _ => .num none
  | _, _ => .num (optAdd (toNumeric l) (toNumeric r))

/-- `applyAddition` from `src/expressions.ts`. -/
def applyAddition (left right : JsValue) : JsValue :=
  match left with
  | .date a =>
    match toNullishAwareDuration right with
    | some dur => .date (a + dur)
    | none =>
      match right with
      | .date b =>
        match toNullishAwareDuration left with
        | some dur => .date (b + dur)
        | none => nativeAdd left right
      | _ => nativeAdd left right
  | _ =>
    match right with
    | .date b =>
      match toNullishAwareDuration left with
      | some dur => .date (b + dur)
      | none => nativeAdd left right
    | _ => nativeAdd left right

/-- `applySubtraction` from `src/expressions.ts`. -/
def applySubtraction (left right : JsValue) : JsValue :=
  match left, right with
  | .date a, .date b => .num (some (a - b))
  | .date a, r =>
    match toNullishAwareDuration r with
    | some dur => .date (a - dur)
    | none => .num (optSub (toNumeric (.date a)) (toNumeric r))
  | l, r => .num (optSub (toNumeric l) (toNumeric r))

/-- `formatValue` from `src/expressions.ts`, restricted to the embedded value
domain (the array and link-object branches concern constructors the domain
does not contain). -/
def formatValue : JsValue → String
  | .vnull => ""
  | .vundefined => ""
  | .str s => s
  | .num v => jsNumToString v
  | .bigint n => intToStr n
  | .bool b => if b then "true" else "false"
  | .date t => isoOfMs t.floorI

/-- `parseDate` from the global-function module (`src/unnamed/part_005`):
`date()`'s implementation. -/
def parseDate : JsValue → Except String JsValue
  | .date t => .ok (.date t)
  | .str s =>
    let trimmed := jsTrim s
    if trimmed = "" then .error "date() requires a non-empty string."
    else
      match jsDateParse trimmed with
      | none => .error ("Unable to parse date string \"" ++ s ++ "\".")
      | some ms => .ok (.date (Q.ofInt ms))
  | _ => .error "date() requires a string or Date argument."

/-- `normalizeNumber` from the global-function module
(`src/unnamed/part_005`): `number()`'s implementation. -/
def normalizeNumber : JsValue → Except String Q
  | .num (some q) => .ok q
  | .num none => .error "number() requires finite numeric values."
  | .date t => .ok t
  | .bool b => .ok (if b then Q.ofInt 1 else Q.ofInt 0)
  | .str s =>
    let trimmed := jsTrim s
    if trimmed = "" then .error "number() cannot parse an empty string."
    else
      match jsNumberOfString trimmed with
      | some q => .ok q
      | none => .error ("Unable to parse number from \"" ++ s ++ "\".")
  | .vnull => .error "number() cannot convert null or undefined."
  | .vundefined => .error "number() cannot convert null or undefined."
  | .bigint n => .ok (Q.ofInt n)


/-! ## Pre-parse source rewriting (`normalizeExpressionSource`,
`src/expressions.ts`)

The scanner threads the quote state (`inSingle`/`inDouble`/`inTemplate` with
an escape flag) through the input; outside quoted spans the bare identifiers
`if` and `file` are rewritten to `_if` / `_fileFn` when followed (across
whitespace) by `(` and not adjacent to identifier characters or a dot. -/

inductive QState where
  | outside : QState
  | inS : Bool → QState
  | inD : Bool → QState
  | inT : Bool → QState
  deriving DecidableEq, Repr

def nameIF : List Char := ['i', 'f']
def aliasIF : List Char := ['_', 'i', 'f']
def nameFILE : List Char := ['f', 'i', 'l', 'e']
def aliasFILE : List Char := ['_', 'f', 'i', 'l', 'e', 'F', 'n']

/-- `GLOBAL_FUNCTION_ALIASES` from `src/expressions.ts`, in entry order. -/
def aliasEntries : List (List Char × List Char) :=
  [(nameIF, aliasIF), (nameFILE, aliasFILE)]

/-- First non-whitespace character (the `probe` loop of the scanner). -/
def firstNonWs : List Char → Option Char
  | [] => none
  | c :: cs => if jsIsWhite c then firstNonWs cs else some c

/-- The alias conditions of the scanner at the current position: `rest`
starts with the name, the previous character is neither an identifier
character nor a dot, the following character is not an identifier character,
and the next non-whitespace character is `(`. -/
def aliasCond (prev : Option Char) (rest : List Char) (name : List Char) : Bool :=
  leadsWith name rest &&
  !isIdentifierCharacter prev && prev ≠ some '.' &&
  !isIdentifierCharacter (rest.drop name.length).head? &&
  firstNonWs (rest.drop name.length) = some '('

/-- The `for (const [name, alias] of Object.entries(GLOBAL_FUNCTION_ALIASES))`
loop: first entry whose conditions hold, yielding the alias text and the
consumed length. -/
def tryAliasAt (prev : Option Char) (rest : List Char) : Option (List Char × Nat) :=
  match aliasEntries.find? (fun p => aliasCond prev rest p.1) with
  | some p => some (p.2, p.1.length)
  | none => none

/-- The character-by-character scan of `normalizeExpressionSource`, carrying
the previous input character and the quote state.  `fuel` bounds the number
of loop iterations (each consumes at least one character, so
`length + 1` always suffices). -/
def normGo : Nat → Option Char → QState → List Char → List Char
  | 0, _, _, _ => []
  | _ + 1, _, _, [] => []
  | f + 1, prev, st, c :: cs =>
    match st with
    | .inS esc =>
      c :: normGo f (some c)
        (if esc then .inS false else if c = chBS then .inS true
         else if c = chSQ then .outside else .inS false) cs
    | .inD esc =>
      c :: normGo f (some c)
        (if esc then .inD false else if c = chBS then .inD true
         else if c = chDQ then .outside else .inD false) cs
    | .inT esc =>
      c :: normGo f (some c)
        (if esc then .inT false else if c = chBS then .inT true
         else if c = chBT then .outside else .inT false) cs
    | .outside =>
      if c = chSQ then c :: normGo f (some c) (.inS false) cs
      else if c = chDQ then c :: normGo f (some c) (.inD false) cs
      else if c = chBT then c :: normGo f (some c) (.inT false) cs
      else
        match tryAliasAt prev (c :: cs) with
        | some p =>
          p.1 ++ normGo f ((c :: cs).take p.2).getLast? .outside ((c :: cs).drop p.2)
        | none => c :: normGo f (some c) .outside cs

/-- `normalizeExpressionSource` from `src/expressions.ts`. -/
def normalizeExpressionSource (expression : String) : String :=
  String.mk (normGo (expression.data.length + 1) none .outside expression.data)

/-! ### Position-based specification of the rewrite (C8)

The claim describes the rewrite per occurrence: a replacement happens exactly
at positions that are outside quoted spans and satisfy the neighbour and
look-ahead conditions; every other character is emitted unchanged.  Here the
quote state of a position is recomputed from scratch from the prefix before
it by folding the one-step automaton, rather than threaded by the scanner. -/

/-- One step of the quote-span automaton. -/
def quoteStep (st : QState) (c : Char) : QState :=
  match st with
  | .outside =>
    if c = chSQ then .inS false else if c = chDQ then .inD false
    else if c = chBT then .inT false else .outside
  | .inS esc =>
    if esc then .inS false else if c = chBS then .inS true
    else if c = chSQ then .outside else .inS false
  | .inD esc =>
    if esc then .inD false else if c = chBS then .inD true
    else if c = chDQ then .outside else .inD false
  | .inT esc =>
    if esc then .inT false else if c = chBS then .inT true
    else if c = chBT then .outside else .inT false

/-- Quote state after consuming the prefix `pre`. -/
def stateAt (pre : List Char) : QState := pre.foldl quoteStep .outside

/-- The claim's replacement condition at the position splitting the input
into `pre ++ post`. -/
def replCond (pre post : List Char) (name : List Char) : Bool :=
  aliasCond pre.getLast? post name && stateAt pre = .outside

/-- Position-based rewriting: at each position, rewrite `if`/`file` exactly
when the claim's conditions hold, otherwise copy the character. -/
def specGo : Nat → List Char → List Char → List Char
  | 0, _, _ => []
  | _ + 1, _, [] => []
  | f + 1, pre, c :: cs =>
    if replCond pre (c :: cs) nameIF then
      aliasIF ++ specGo f (pre ++ nameIF) ((c :: cs).drop 2)
    else if replCond pre (c :: cs) nameFILE then
      aliasFILE ++ specGo f (pre ++ nameFILE) ((c :: cs).drop 4)
    else c :: specGo f (pre ++ [c]) cs

/-- Position-based statement of the source rewrite. -/
def specNormalize (expression : String) : String :=
  String.mk (specGo (expression.data.length + 1) [] expression.data)


/-! ## Filter trees (`matchesFilter` and friends, `src/expressions.ts`)

A `BaseFilter` is a raw expression string or a compound object; a compound
object is represented by its three (optional) `and`/`or`/`not` values plus
the list of its remaining keys in insertion order.  To keep every definition
structurally recursive, group values live in the same inductive: a group
position holds `gAbsent` (key missing), `gNonArr` (key present but its value
is not an array) or a `fcons`/`fnil` chain (the array of member filters).
`fother` stands for a filter entry that is neither a string nor an object.
Shapes that mix the two sorts (a chain constructor in node position or vice
versa) encode no JS value; the functions below map them to a designated
`malformed` error and the well-formedness predicate excludes them. -/

inductive BFilter where
  | fstr : String → BFilter
  | fother : BFilter
  | fobj : BFilter → BFilter → BFilter → List String → BFilter
  | gAbsent : BFilter
  | gNonArr : BFilter
  | fnil : BFilter
  | fcons : BFilter → BFilter → BFilter
  deriving DecidableEq, Repr

/-- An evaluation state, abstracted to its `evaluate(expression, label)`
member: the scope is fixed inside the closure, errors are message chains. -/
def EvalFn : Type := String → String → Except (List String) JsValue

/-- `evaluateFilterLiteral` from `src/expressions.ts`. -/
def evaluateFilterLiteral (ev : EvalFn) (literal : String) (ctx : String) :
    Except (List String) Bool :=
  let trimmed := jsTrim literal
  if trimmed = "" then .ok false
  else
    match ev trimmed (ctx ++ " expression \"" ++ trimmed ++ "\"") with
    | .error e => .error e
    | .ok v => .ok (jsTruthy v)

/-- Evaluation positions: a filter node, a short-circuit ALL chain
(`and`/`not` loops), or a short-circuit ANY chain (`or` loop). -/
inductive FMode where
  | mnode : FMode
  | mall : FMode
  | many : FMode
  deriving DecidableEq, Repr

/-- `evaluateFilterNode` from `src/expressions.ts`, together with its three
group loops, by structural recursion on the tree.  In `.mnode` position the
compound branches follow the source exactly: key validation, then the `and`
block (`ensureFilterList`, short-circuit ALL, early `false`), then the `or`
block (empty group is `false`, otherwise some member must match), then the
`not` block (any match yields `false`). -/
def evalFilt (ev : EvalFn) : FMode → BFilter → String → Except (List String) Bool
  | .mnode, .fstr s, ctx => evaluateFilterLiteral ev s ctx
  | .mnode, .fother, _ => .error ["Filter entry must be a string or object."]
  | .mnode, .fobj a o nt extras, ctx =>
    if !extras.isEmpty then
      .error ["Filter contains unsupported keys: " ++ joinComma extras]
    else
      match (match a with
             | .gAbsent => Except.ok true
             | .gNonArr => Except.error [ctx ++ " \"and\" group must be an array."]
             | g => evalFilt ev .mall g (ctx ++ " (and)")) with
      | .error e => .error e
      | .ok false => .ok false
      | .ok true =>
        match (match o with
               | .gAbsent => Except.ok true
               | .gNonArr => Except.error [ctx ++ " \"or\" group must be an array."]
               | .fnil => Except.ok false
               | g => evalFilt ev .many g (ctx ++ " (or)")) with
        | .error e => .error e
        | .ok false => .ok false
        | .ok true =>
          match (match nt with
                 | .gAbsent => Except.ok false
                 | .gNonArr => Except.error [ctx ++ " \"not\" group must be an array."]
                 | g => evalFilt ev .many g (ctx ++ " (not)")) with
          | .error e => .error e
          | .ok true => .ok false
          | .ok false => .ok true
  | .mnode, _, _ => .error ["malformed filter encoding"]
  | .mall, .fnil, _ => .ok true
  | .mall, .fcons x xs, ctx =>
    match evalFilt ev .mnode x ctx with
    | .error e => .error e
    | .ok false => .ok false
    | .ok true => evalFilt ev .mall xs ctx
  | .mall, _, _ => .error ["malformed filter encoding"]
  | .many, .fnil, _ => .ok false
  | .many, .fcons x xs, ctx =>
    match evalFilt ev .mnode x ctx with
    | .error e => .error e
    | .ok true => .ok true
    | .ok false => evalFilt ev .many xs ctx
  | .many, _, _ => .error ["malformed filter encoding"]

/-- `evaluateFilterNode` applied to a filter node. -/
def evaluateFilterNode (ev : EvalFn) (node : BFilter) (ctx : String) :
    Except (List String) Bool :=
  evalFilt ev .mnode node ctx

/-- `matchesFilter` from `src/expressions.ts` (`undefined`/`null` filters are
the `none` case; any raised error chain is wrapped with the context). -/
def matchesFilter (ev : EvalFn) (filter : Option BFilter) (ctx : String) :
    Except (List String) Bool :=
  match filter with
  | none => .ok true
  | some node =>
    match evaluateFilterNode ev node ctx with
    | .ok b => .ok b
    | .error e => .error (("Failed to process " ++ ctx) :: e)

/-- C1's hypothesis, by position (`true` = node position, `false` = group
position): every compound node uses only `and`/`or`/`not` keys, each mapping
to an array of well-formed members. -/
def wkF : Bool → BFilter → Bool
  | true, .fstr _ => true
  | true, .fother => false
  | true, .fobj a o nt extras =>
    extras.isEmpty &&
    (match a with
     | .gAbsent => true
     | .gNonArr => false
     | g => wkF false g) &&
    (match o with
     | .gAbsent => true
     | .gNonArr => false
     | g => wkF false g) &&
    (match nt with
     | .gAbsent => true
     | .gNonArr => false
     | g => wkF false g)
  | true, _ => false
  | false, .fnil => true
  | false, .fcons x xs => wkF true x && wkF false xs
  | false, _ => false

/-- Well-keyed filter tree (C1's hypothesis). -/
def wellKeyed (t : BFilter) : Bool := wkF true t

/-- Truth value of a string leaf under a pure valuation of the trimmed
expressions (blank leaves never match). -/
def litB (f : String → JsValue) (s : String) : Bool :=
  if jsTrim s = "" then false else jsTruthy (f (jsTrim s))

/-- The claim's conjunction, computed group-wise without short-circuiting:
every `and` member matches, a present `or` group is non-empty and some
member matches, no `not` member matches; absent groups are vacuously
satisfied (`.mall` computes ALL over a chain, `.many` computes ANY, so an
empty `or` chain yields false). -/
def specHoldsF (f : String → JsValue) : FMode → BFilter → Bool
  | .mnode, .fstr s => litB f s
  | .mnode, .fother => false
  | .mnode, .fobj a o nt _ =>
    (match a with
     | .gAbsent => true
     | .gNonArr => false
     | g => specHoldsF f .mall g) &&
    (match o with
     | .gAbsent => true
     | .gNonArr => false
     | g => specHoldsF f .many g) &&
    (match nt with
     | .gAbsent => true
     | .gNonArr => false
     | g => !specHoldsF f .many g)
  | .mnode, _ => false
  | .mall, .fnil => true
  | .mall, .fcons x xs => specHoldsF f .mnode x && specHoldsF f .mall xs
  | .mall, _ => false
  | .many, .fnil => false
  | .many, .fcons x xs => specHoldsF f .mnode x || specHoldsF f .many xs
  | .many, _ => false

/-- The claim's conjunction for a filter tree. -/
def specMatches (f : String → JsValue) (t : BFilter) : Bool :=
  specHoldsF f .mnode t

/-- A non-throwing evaluation state built from a pure valuation of the
(trimmed) filter expressions. -/
def pureEval (f : String → JsValue) : EvalFn := fun s _ => .ok (f s)

/-- The `"and" in compound` block of `evaluateFilterNode` as a named
function of the group value (`ensureFilterList` + short-circuit ALL). -/
def andRes (ev : EvalFn) (g : BFilter) (ctx : String) :
    Except (List String) Bool :=
  match g with
  | .gAbsent => .ok true
  | .gNonArr => .error [ctx ++ " \"and\" group must be an array."]
  | g => evalFilt ev .mall g (ctx ++ " (and)")

/-- The `"or" in compound` block: empty group is false, otherwise ANY. -/
def orRes (ev : EvalFn) (g : BFilter) (ctx : String) :
    Except (List String) Bool :=
  match g with
  | .gAbsent => .ok true
  | .gNonArr => .error [ctx ++ " \"or\" group must be an array."]
  | .fnil => .ok false
  | g => evalFilt ev .many g (ctx ++ " (or)")

/-- The `"not" in compound` block: `.ok true` means some member matched. -/
def notRes (ev : EvalFn) (g : BFilter) (ctx : String) :
    Except (List String) Bool :=
  match g with
  | .gAbsent => .ok false
  | .gNonArr => .error [ctx ++ " \"not\" group must be an array."]
  | g => evalFilt ev .many g (ctx ++ " (not)")

/-- The spec-side value of the `and` group. -/
def specAnd (f : String → JsValue) (g : BFilter) : Bool :=
  match g with
  | .gAbsent => true
  | .gNonArr => false
  | g => specHoldsF f .mall g

/-- The spec-side value of the `or` group. -/
def specOr (f : String → JsValue) (g : BFilter) : Bool :=
  match g with
  | .gAbsent => true
  | .gNonArr => false
  | g => specHoldsF f .many g

/-- The spec-side "some `not` member matches" value. -/
def specNotAny (f : String → JsValue) (g : BFilter) : Bool :=
  match g with
  | .gAbsent => false
  | .gNonArr => true
  | g => specHoldsF f .many g

/-- The node-position well-formedness of a group value. -/
def wkG : BFilter → Bool
  | .gAbsent => true
  | .gNonArr => false
  | g => wkF false g

/-! ## Scope construction (`buildEvaluationState`, `src/expressions.ts`)

Only the insertion skeleton matters to the claims: entries are tagged with
their provenance (the five explicit entries, a promoted frontmatter value, a
global function, or a built-in namespace); values of the explicit entries and
the functions are opaque here. -/

inductive SVal where
  | special : String → SVal
  | fmVal : JsValue → SVal
  | gfun : String → SVal
  | builtin : String → SVal
  | proxy : SVal
  deriving DecidableEq, Repr

/-- `RESERVED_IDENTIFIERS` from `src/expressions.ts`. -/
def reservedIdentifiers : List String :=
  ["arguments", "eval", "prototype", "constructor", "__proto__", "super",
   "globalThis", "window", "if"]

/-- Keys of `GLOBAL_FUNCTIONS` (`src/unnamed/part_005`), in object order. -/
def globalFunctionNames : List String :=
  ["today", "now", "date", "duration", "file", "if", "image", "icon", "link",
   "list", "max", "min", "number"]

/-- `GLOBAL_FUNCTION_ALIASES` as a key map. -/
def aliasOf (k : String) : Option String :=
  if k = "if" then some "_if" else if k = "file" then some "_fileFn" else none

/-- `BUILTIN_SCOPE_ENTRIES` keys, in object order. -/
def builtinScopeNames : List String :=
  ["Array", "Boolean", "Date", "JSON", "Map", "Math", "Number", "Object",
   "Reflect", "RegExp", "Set", "String", "Symbol", "WeakMap", "WeakSet",
   "BigInt"]

/-- `IDENTIFIER_PATTERN.test` combined with the reserved-set check
(`isValidIdentifier` in `src/expressions.ts`). -/
def isValidIdentifier (k : String) : Bool :=
  (match k.data with
   | [] => false
   | c :: cs => isIdentStart c && cs.all isIdentChar) &&
  !memStr k reservedIdentifiers

def hasKey (sc : List (String × SVal)) (k : String) : Bool :=
  (alookup sc k).isSome

/-- `if (!Object.prototype.hasOwnProperty.call(scope, key)) scope[key] = v`. -/
def addIfAbsent (sc : List (String × SVal)) (k : String) (v : SVal) :
    List (String × SVal) :=
  if hasKey sc k then sc else sc ++ [(k, v)]

/-- The five explicit scope entries assigned first in
`buildEvaluationState`. -/
def specialScopeEntries : List (String × SVal) :=
  [("file", .special "file"), ("frontmatter", .special "frontmatter"),
   ("metadata", .special "metadata"), ("note", .special "note"),
   ("properties", .special "properties")]

/-- One step of the promoted-frontmatter loop of `buildEvaluationState`. -/
def fmStep (sc : List (String × SVal)) (kv : String × JsValue) :
    List (String × SVal) :=
  if !hasKey sc kv.1 && isValidIdentifier kv.1 &&
      !memStr kv.1 globalFunctionNames then
    sc ++ [(kv.1, .fmVal kv.2)]
  else sc

/-- One step of the global-function loop (binds the key and its alias). -/
def gfStep (sc : List (String × SVal)) (k : String) : List (String × SVal) :=
  let sc' := addIfAbsent sc k (.gfun k)
  match aliasOf k with
  | some a => addIfAbsent sc' a (.gfun k)
  | none => sc'

/-- One step of the built-in namespace loop. -/
def biStep (sc : List (String × SVal)) (k : String) : List (String × SVal) :=
  addIfAbsent sc k (.builtin k)

/-- Plain JS property assignment `scope[k] = v`: overwrites an existing
binding in place, otherwise appends. -/
def setKey (sc : List (String × SVal)) (k : String) (v : SVal) :
    List (String × SVal) :=
  if hasKey sc k then sc.map (fun kv => if kv.1 = k then (kv.1, v) else kv)
  else sc ++ [(k, v)]

/-- The scope-insertion skeleton of `buildEvaluationState`: explicit entries,
then promoted frontmatter identifiers, then global functions with their
aliases, then built-in namespaces, and finally the unconditional
`scope.formula = formulaProxy` assignment.  `fm` is `Object.entries(note)` —
the file's frontmatter in insertion order. -/
def buildScope (fm : List (String × JsValue)) : List (String × SVal) :=
  setKey
    (builtinScopeNames.foldl biStep
      (globalFunctionNames.foldl gfStep (fm.foldl fmStep specialScopeEntries)))
    "formula" .proxy

/-- `hasScopeIdentifier`/`evaluateIdentifier` resolution: first (unique)
binding of the key. -/
def scopeLookup (sc : List (String × SVal)) (k : String) : Option SVal :=
  alookup sc k

/-! ## Formula proxy (`formulaProxy` in `buildEvaluationState`,
`src/expressions.ts`)

The reentrant part of the evaluator is modelled on the fragment of the
expression language that can reach the proxy: literals, `formula.<name>`
member accesses and binary `+` (enough to express the spec's cyclic-formula
scenario).  Parsing of formula sources is abstracted by a `parse` function;
`evaluate`'s trimming, source normalization and error wrapping are embedded
faithfully.  A single fuel counter (decremented on every recursive call)
makes the evaluator kernel-computable; all theorems are stated with
sufficient fuel.  Errors carry only the message chain, not a state: in the
source every catch rethrows, so after the `finally` cleanup the state of a
failed evaluation is never observed. -/

inductive FExpr where
  | lit : JsValue → FExpr
  | fref : String → FExpr
  | fadd : FExpr → FExpr → FExpr
  deriving DecidableEq, Repr

/-- A formula definition as found in the base's `formulas` mapping: a source
string, or some non-string YAML value. -/
inductive FDef where
  | src : String → FDef
  | nonStr : FDef
  deriving DecidableEq, Repr

/-- Mutable evaluation state of the proxy: the memo table (`formulaCache`)
and the in-progress set (`evaluating`). -/
structure FState where
  cache : List (String × JsValue)
  evaluating : List String
  deriving DecidableEq, Repr

/-- The tasks of the mutually recursive trio `evaluate` /
`evaluateExpressionNode` / proxy-`get`. -/
inductive ETask where
  | texpr : FExpr → ETask
  | tget : String → ETask
  | teval : String → String → ETask
  deriving DecidableEq, Repr

/-- One recursive engine for the three tasks.  `teval expression label` is
`evaluate` from `buildEvaluationState` (trim, normalize, parse, evaluate,
wrap evaluation errors with the label); `tget name` is the proxy `get`
handler; `texpr e` walks an expression. -/
def runE (defs : List (String × FDef)) (parse : String → Option FExpr) :
    Nat → ETask → FState → Except (List String) (JsValue × FState)
  | 0, _, _ => .error ["formula evaluation fuel exhausted"]
  | n + 1, .texpr e, st =>
    match e with
    | .lit v => .ok (v, st)
    | .fref name => runE defs parse n (.tget name) st
    | .fadd x y =>
      match runE defs parse n (.texpr x) st with
      | .error e1 => .error e1
      | .ok (vx, st1) =>
        match runE defs parse n (.texpr y) st1 with
        | .error e2 => .error e2
        | .ok (vy, st2) => .ok (applyAddition vx vy, st2)
  | n + 1, .teval expression label, st =>
    let trimmed := jsTrim expression
    if trimmed = "" then .ok (.vundefined, st)
    else
      let normalized := normalizeExpressionSource trimmed
      match parse normalized with
      | none => .error ["Failed to parse expression \"" ++ normalized ++ "\""]
      | some ast =>
        match runE defs parse n (.texpr ast) st with
        | .error e => .error (("Failed to evaluate " ++ label) :: e)
        | .ok r => .ok r
  | n + 1, .tget name, st =>
    match alookup st.cache name with
    | some v => .ok (v, st)
    | none =>
      if (alookup defs name).isSome = false then .ok (.vundefined, st)
      else if memStr name st.evaluating then
        .error ["Circular formula reference detected for \"" ++ name ++ "\""]
      else
        match alookup defs name with
        | none => .ok (.vundefined, st)
        | some .nonStr =>
          .ok (.vundefined, { st with cache := (name, .vundefined) :: st.cache })
        | some (.src expression) =>
          if jsTrim expression = "" then
            .ok (.vundefined, { st with cache := (name, .vundefined) :: st.cache })
          else
            let st1 : FState := { st with evaluating := name :: st.evaluating }
            match runE defs parse n
                (.teval expression ("formula \"" ++ name ++ "\"")) st1 with
            | .error e =>
              .error (("Failed to evaluate formula \"" ++ name ++ "\"") :: e)
            | .ok (v, st2) =>
              .ok (v, { cache := (name, v) :: st2.cache,
                        evaluating := st2.evaluating.filter (fun x => x ≠ name) })

/-- The proxy `get` handler (`formulaProxy` in `src/expressions.ts`). -/
def formulaProxyGet (defs : List (String × FDef)) (parse : String → Option FExpr)
    (fuel : Nat) (name : String) (st : FState) :
    Except (List String) (JsValue × FState) :=
  runE defs parse fuel (.tget name) st

/-- Top-level `evaluate(expression, label)` from `buildEvaluationState`. -/
def evaluateExpr (defs : List (String × FDef)) (parse : String → Option FExpr)
    (fuel : Nat) (expression label : String) (st : FState) :
    Except (List String) (JsValue × FState) :=
  runE defs parse fuel (.teval expression label) st

/-- Does an error result carry some message containing `pat`? -/
def errChainContains (r : Except (List String) (JsValue × FState))
    (pat : String) : Bool :=
  match r with
  | .error msgs => msgs.any (fun m => occursIn pat m)
  | .ok _ => false


/-! ## Concrete instances used by the theorems -/

/-- The spec's cyclic-formula scenario: `a: formula.b + 1`,
`b: formula.a + 1`. -/
def defsAB : List (String × FDef) :=
  [("a", .src "formula.b + 1"), ("b", .src "formula.a + 1")]

/-- Parse results for the three sources appearing in the scenario (the jsep
AST restricted to the fragment `FExpr`). -/
def parseAB : String → Option FExpr := fun s =>
  if s = "formula.b + 1" then
    some (.fadd (.fref "b") (.lit (.num (some (Q.ofInt 1)))))
  else if s = "formula.a + 1" then
    some (.fadd (.fref "a") (.lit (.num (some (Q.ofInt 1)))))
  else if s = "formula.a" then some (.fref "a")
  else none

/-- A concrete evaluation state whose evaluation returns `undefined` for
every expression. -/
def evAllUndefined : EvalFn := fun _ _ => .ok .vundefined

/-- Concrete valuation for the C1 witness. -/
def fXY : String → JsValue := fun s => .bool (s = "x" || s = "y")

/-- Concrete well-keyed filter tree for the C1 witness:
`{and: ["x"], or: ["y", ""], not: [""]}`. -/
def tXY : BFilter :=
  .fobj (.fcons (.fstr "x") .fnil)
    (.fcons (.fstr "y") (.fcons (.fstr "") .fnil))
    (.fcons (.fstr "") .fnil) []

/-! ## The filter algebra (C1) -/

/-- Pure evaluation states make string leaves evaluate to their `litB`
value. -/
theorem evaluateFilterLiteral_pure (f : String → JsValue) (s ctx : String) :
    evaluateFilterLiteral (pureEval f) s ctx = .ok (litB f s) := by
  unfold evaluateFilterLiteral litB pureEval
  by_cases h : jsTrim s = "" <;> simp [h]

theorem wkF_false_fstr (s : String) : wkF false (.fstr s) = false := rfl
theorem wkF_false_fother : wkF false .fother = false := rfl
theorem wkF_false_fobj (a o nt : BFilter) (ex : List String) :
    wkF false (.fobj a o nt ex) = false := rfl
theorem wkF_true_gAbsent : wkF true .gAbsent = false := rfl
theorem wkF_true_gNonArr : wkF true .gNonArr = false := rfl
theorem wkF_true_fnil : wkF true .fnil = false := rfl
theorem wkF_true_fcons (x xs : BFilter) : wkF true (.fcons x xs) = false := rfl

/-- `evaluateFilterNode` on a compound node, phrased through the three named
group blocks. -/
theorem evalFilt_fobj_by_groups (ev : EvalFn) (a o nt : BFilter)
    (ex : List String) (ctx : String) :
    evalFilt ev .mnode (.fobj a o nt ex) ctx =
      (if !ex.isEmpty then
        .error ["Filter contains unsupported keys: " ++ joinComma ex]
      else
        match andRes ev a ctx with
        | .error e => .error e
        | .ok false => .ok false
        | .ok true =>
          match orRes ev o ctx with
          | .error e => .error e
          | .ok false => .ok false
          | .ok true =>
            match notRes ev nt ctx with
            | .error e => .error e
            | .ok true => .ok false
            | .ok false => .ok true) := by
  cases a <;> cases o <;> cases nt <;>
    simp only [evalFilt, andRes, orRes, notRes]

theorem specHoldsF_fobj_by_groups (f : String → JsValue) (a o nt : BFilter)
    (ex : List String) :
    specHoldsF f .mnode (.fobj a o nt ex) =
      (specAnd f a && specOr f o && !specNotAny f nt) := by
  cases a <;> cases o <;> cases nt <;>
    simp only [specHoldsF, specAnd, specOr, specNotAny] <;> rfl

theorem wkF_fobj_by_groups (a o nt : BFilter) (ex : List String) :
    wkF true (.fobj a o nt ex) =
      (ex.isEmpty && wkG a && wkG o && wkG nt) := by
  cases a <;> cases o <;> cases nt <;> simp only [wkF, wkG]

/-- Master lemma: under a pure evaluation state, the short-circuiting
evaluator agrees with the group-wise conjunction on well-keyed trees, in
every position. -/
theorem evalFilt_pure (f : String → JsValue) (t : BFilter) :
    ∀ ctx : String,
      (wkF true t = true →
        evalFilt (pureEval f) .mnode t ctx = .ok (specHoldsF f .mnode t)) ∧
      (wkF false t = true →
        evalFilt (pureEval f) .mall t ctx = .ok (specHoldsF f .mall t) ∧
        evalFilt (pureEval f) .many t ctx = .ok (specHoldsF f .many t)) := by
  induction t with
  | fstr s =>
    intro ctx
    refine ⟨fun _ => ?_, fun h => Bool.noConfusion (wkF_false_fstr s ▸ h)⟩
    simp [evalFilt, specHoldsF, evaluateFilterLiteral_pure]
  | fother =>
    intro ctx
    exact ⟨fun h => Bool.noConfusion h, fun h => Bool.noConfusion (wkF_false_fother ▸ h)⟩
  | fobj a o nt extras iha iho ihnt =>
    intro ctx
    refine ⟨fun h => ?_, fun h => Bool.noConfusion (wkF_false_fobj a o nt extras ▸ h)⟩
    rw [wkF_fobj_by_groups] at h
    simp only [Bool.and_eq_true] at h
    obtain ⟨⟨⟨hex, ha⟩, ho⟩, hnt⟩ := h
    rw [evalFilt_fobj_by_groups, specHoldsF_fobj_by_groups]
    simp only [hex, Bool.not_true, Bool.false_eq_true, if_false]
    have hA : andRes (pureEval f) a ctx = .ok (specAnd f a) := by
      cases a with
      | gAbsent => rfl
      | gNonArr => exact Bool.noConfusion ha
      | fstr s => exact Bool.noConfusion ha
      | fother => exact Bool.noConfusion ha
      | fobj x y z w => exact Bool.noConfusion ha
      | fnil => rfl
      | fcons x xs =>
        have := ((iha (ctx ++ " (and)")).2 ha).1
        simpa [andRes, specAnd] using this
    rw [hA]
    cases hAv : specAnd f a with
    | false => simp
    | true =>
      have hO : orRes (pureEval f) o ctx = .ok (specOr f o) := by
        cases o with
        | gAbsent => rfl
        | gNonArr => exact Bool.noConfusion ho
        | fstr s => exact Bool.noConfusion ho
        | fother => exact Bool.noConfusion ho
        | fobj x y z w => exact Bool.noConfusion ho
        | fnil => rfl
        | fcons x xs =>
          have := ((iho (ctx ++ " (or)")).2 ho).2
          simpa [orRes, specOr] using this
      rw [hO]
      cases hOv : specOr f o with
      | false => simp
      | true =>
        have hN : notRes (pureEval f) nt ctx = .ok (specNotAny f nt) := by
          cases nt with
          | gAbsent => rfl
          | gNonArr => exact Bool.noConfusion hnt
          | fstr s => exact Bool.noConfusion hnt
          | fother => exact Bool.noConfusion hnt
          | fobj x y z w => exact Bool.noConfusion hnt
          | fnil =>
            have := ((ihnt (ctx ++ " (not)")).2 hnt).2
            simpa [notRes, specNotAny] using this
          | fcons x xs =>
            have := ((ihnt (ctx ++ " (not)")).2 hnt).2
            simpa [notRes, specNotAny] using this
        rw [hN]
        cases hNv : specNotAny f nt with
        | false => simp
        | true => simp
  | gAbsent =>
    intro ctx
    exact ⟨fun h => Bool.noConfusion (wkF_true_gAbsent ▸ h),
      fun h => Bool.noConfusion h⟩
  | gNonArr =>
    intro ctx
    exact ⟨fun h => Bool.noConfusion (wkF_true_gNonArr ▸ h),
      fun h => Bool.noConfusion h⟩
  | fnil =>
    intro ctx
    exact ⟨fun h => Bool.noConfusion (wkF_true_fnil ▸ h),
      fun _ => ⟨rfl, rfl⟩⟩
  | fcons x xs ihx ihxs =>
    intro ctx
    refine ⟨fun h => Bool.noConfusion (wkF_true_fcons x xs ▸ h), fun h => ?_⟩
    rw [show wkF false (.fcons x xs) = (wkF true x && wkF false xs) from rfl,
      Bool.and_eq_true] at h
    obtain ⟨hx, hxs⟩ := h
    have hxe := (ihx ctx).1 hx
    have hall := ((ihxs ctx).2 hxs).1
    have hany := ((ihxs ctx).2 hxs).2
    constructor
    · rw [show evalFilt (pureEval f) .mall (.fcons x xs) ctx =
            (match evalFilt (pureEval f) .mnode x ctx with
             | .error e => .error e
             | .ok false => .ok false
             | .ok true => evalFilt (pureEval f) .mall xs ctx) from rfl, hxe]
      cases hX : specHoldsF f .mnode x with
      | false => simp [specHoldsF, hX]
      | true => simpa [specHoldsF, hX] using hall
    · rw [show evalFilt (pureEval f) .many (.fcons x xs) ctx =
            (match evalFilt (pureEval f) .mnode x ctx with
             | .error e => .error e
             | .ok true => .ok true
             | .ok false => evalFilt (pureEval f) .many xs ctx) from rfl, hxe]
      cases hX : specHoldsF f .mnode x with
      | false => simpa [specHoldsF, hX] using hany
      | true => simp [specHoldsF, hX]


/-- C1: for every filter tree whose compound nodes use only the keys
`and`/`or`/`not`, each mapping to an array, and every evaluation state,
`matchesFilter` computes the conjunction of: every `and` member matches; if
an `or` group is present it is non-empty and some member matches (an empty
`or` group yields false); and no `not` member matches — absent groups being
vacuously satisfied.  An `undefined`/`null` filter matches every file. -/
theorem c1_filter_matches_spec :
    (∀ (ev : EvalFn) (ctx : String), matchesFilter ev none ctx = .ok true) ∧
    (∀ (f : String → JsValue) (t : BFilter) (ctx : String),
      wellKeyed t = true →
      matchesFilter (pureEval f) (some t) ctx = .ok (specMatches f t)) := by
  constructor
  · intro ev ctx
    rfl
  · intro f t ctx h
    have he := (evalFilt_pure f t ctx).1 h
    simp only [matchesFilter, evaluateFilterNode, specMatches, he]

theorem c1_witness :
    wellKeyed tXY = true ∧
    matchesFilter (pureEval fXY) (some tXY) "filters" = .ok (specMatches fXY tXY) :=
  ⟨by decide, c1_filter_matches_spec.2 fXY tXY "filters" (by decide)⟩

/-- C9 counterexample: a compound filter whose `or` key maps to a non-array
does NOT raise when the `and` group short-circuits the evaluation to false
(here the `and` group contains a blank expression, which never matches):
the filter simply fails to match. -/
theorem c9_counterexample :
    matchesFilter evAllUndefined
      (some (.fobj (.fcons (.fstr "") .fnil) .gNonArr .gAbsent []))
      "filters" = .ok false := by decide

/-- C9 (amended): a compound filter group that maps to a non-array raises
when evaluation reaches it: an `and` group always (whatever the other
groups hold), an `or` group when no `and` group is present, a `not` group
when neither `and` nor `or` is present; the raised chain is wrapped as
`Failed to process <context>` and contains the message
`<context> "<key>" group must be an array.`. -/
theorem c9_group_array_errors :
    (∀ (ev : EvalFn) (ctx : String) (o nt : BFilter),
      matchesFilter ev (some (.fobj .gNonArr o nt [])) ctx =
        .error ["Failed to process " ++ ctx,
          ctx ++ " \"and\" group must be an array."]) ∧
    (∀ (ev : EvalFn) (ctx : String) (nt : BFilter),
      matchesFilter ev (some (.fobj .gAbsent .gNonArr nt [])) ctx =
        .error ["Failed to process " ++ ctx,
          ctx ++ " \"or\" group must be an array."]) ∧
    (∀ (ev : EvalFn) (ctx : String),
      matchesFilter ev (some (.fobj .gAbsent .gAbsent .gNonArr [])) ctx =
        .error ["Failed to process " ++ ctx,
          ctx ++ " \"not\" group must be an array."]) := by
  refine ⟨fun ev ctx o nt => ?_, fun ev ctx nt => ?_, fun ev ctx => ?_⟩ <;>
    simp [matchesFilter, evaluateFilterNode, evalFilt_fobj_by_groups,
      andRes, orRes, notRes]

/-- C10: a string filter that is empty or whitespace-only makes
`matchesFilter` return false for every evaluation state — in particular
without raising and independently of what evaluating any expression would
produce. -/
theorem c10_blank_filter_false :
    ∀ (ev : EvalFn) (ctx s : String), jsTrim s = "" →
      matchesFilter ev (some (.fstr s)) ctx = .ok false := by
  intro ev ctx s h
  simp [matchesFilter, evaluateFilterNode, evalFilt, evaluateFilterLiteral, h]

theorem c10_witness :
    jsTrim "   " = "" ∧
    matchesFilter evAllUndefined (some (.fstr "   ")) "filters" = .ok false :=
  ⟨by decide, c10_blank_filter_false evAllUndefined "filters" "   " (by decide)⟩

/-- C4: binary minus — `Date - Date` is the millisecond difference of the
time values; `Date - x` for `x` a finite number or a duration-parsable
string is a `Date` at `getTime() - ms`; otherwise the result is numeric
subtraction with `Date` operands read through `getTime()`.  Concretely,
`date("2024-01-08T00:00:00Z") - "1 week"` is a `Date` that formats as
`2024-01-01T00:00:00.000Z`. -/
theorem c4_subtraction :
    (∀ a b : Q, applySubtraction (.date a) (.date b) = .num (some (a - b))) ∧
    (∀ a q : Q, applySubtraction (.date a) (.num (some q)) = .date (a - q)) ∧
    (∀ (a : Q) (s : String) (ms : Q), tryParseDuration s = some ms →
      applySubtraction (.date a) (.str s) = .date (a - ms)) ∧
    (∀ (a : Q) (r : JsValue), (∀ t, r ≠ .date t) →
      toNullishAwareDuration r = none →
      applySubtraction (.date a) r = .num (optSub (some a) (toNumeric r))) ∧
    (∀ l r : JsValue, (∀ t, l ≠ .date t) →
      applySubtraction l r = .num (optSub (toNumeric l) (toNumeric r))) ∧
    (parseDate (.str "2024-01-08T00:00:00Z") =
      .ok (.date (Q.ofInt 1704672000000)) ∧
     applySubtraction (.date (Q.ofInt 1704672000000)) (.str "1 week") =
      .date (Q.ofInt 1704067200000) ∧
     formatValue (.date (Q.ofInt 1704067200000)) =
      "2024-01-01T00:00:00.000Z") := by
  refine ⟨fun a b => rfl, fun a q => rfl, fun a s ms h => ?_,
    fun a r hr hdur => ?_, fun l r hl => ?_, by decide⟩
  · simp [applySubtraction, toNullishAwareDuration, h]
  · cases r with
    | date t => exact absurd rfl (hr t)
    | num v =>
      cases v with
      | none => simp [applySubtraction, toNullishAwareDuration, toNumeric]
      | some q => exact absurd hdur (by simp [toNullishAwareDuration])
    | str s =>
      have hp : tryParseDuration s = none := by
        simpa [toNullishAwareDuration] using hdur
      simp [applySubtraction, toNullishAwareDuration, hp, toNumeric]
    | bigint n => exact absurd hdur (by simp [toNullishAwareDuration])
    | bool b => simp [applySubtraction, toNullishAwareDuration, toNumeric]
    | vnull => simp [applySubtraction, toNullishAwareDuration, toNumeric]
    | vundefined => simp [applySubtraction, toNullishAwareDuration, toNumeric]
  · cases l with
    | date t => exact absurd rfl (hl t)
    | num v => rfl
    | str s => rfl
    | bigint n => rfl
    | bool b => rfl
    | vnull => rfl
    | vundefined => rfl

theorem c4_witness :
    tryParseDuration "1 week" = some (Q.ofInt 604800000) ∧
    applySubtraction (.date (Q.ofInt 1704672000000)) (.str "1 week") =
      .date (Q.ofInt 1704672000000 - Q.ofInt 604800000) :=
  ⟨by decide,
   c4_subtraction.2.2.1 (Q.ofInt 1704672000000) "1 week"
     (Q.ofInt 604800000) (by decide)⟩

/-- C6 counterexample: `number("3px")` raises (`Number("3px")` is `NaN`),
while the claim (via `parseFloat`) says it returns `3`. -/
theorem c6_counterexample :
    normalizeNumber (.str "3px") =
      .error "Unable to parse number from \"3px\"." := by decide

/-- C6 (amended): for a string argument, `number()` applies the host
`Number` conversion (strict whole-string parse) to the trimmed string —
not `parseFloat` — erroring when the trim is empty or the conversion is not
finite; so `number("3px")` errors while `number(" 42 ")` is 42; `number` of
`null` or `undefined` errors. -/
theorem c6_number_semantics :
    (∀ s : String, jsTrim s = "" →
      normalizeNumber (.str s) = .error "number() cannot parse an empty string.") ∧
    (∀ (s : String) (q : Q), jsTrim s ≠ "" → jsNumberOfString (jsTrim s) = some q →
      normalizeNumber (.str s) = .ok q) ∧
    (∀ s : String, jsTrim s ≠ "" → jsNumberOfString (jsTrim s) = none →
      normalizeNumber (.str s) =
        .error ("Unable to parse number from \"" ++ s ++ "\".")) ∧
    normalizeNumber .vnull = .error "number() cannot convert null or undefined." ∧
    normalizeNumber .vundefined = .error "number() cannot convert null or undefined." := by
  refine ⟨fun s h => ?_, fun s q hne hq => ?_, fun s hne hq => ?_, rfl, rfl⟩ <;>
    simp [normalizeNumber, *]

theorem c6_witness :
    jsTrim " 42 " ≠ "" ∧ jsNumberOfString (jsTrim " 42 ") = some (Q.ofInt 42) ∧
    normalizeNumber (.str " 42 ") = .ok (Q.ofInt 42) :=
  ⟨by decide, by decide,
   c6_number_semantics.2.1 " 42 " (Q.ofInt 42) (by decide) (by decide)⟩

/-- C7: the single-letter units behave as claimed (`m` is minutes, `M` is
30-day months) and listed multi-letter tokens match case-insensitively —
but the minute-family multi-letter tokens (`min`, `mins`, `minute`,
`minutes`), although present in `DURATION_UNIT_MULTIPLIERS`, are
unreachable: the case-insensitive alternative `M` precedes them in
`DURATION_PATTERN`, consumes the bare `m`, and the leftover letters make
`parseDuration` raise instead of returning `n × 60000`. -/
theorem c7_minute_units_unreachable :
    parseDuration "1 m" = .ok (Q.ofInt 60000) ∧
    parseDuration "1 M" = .ok (Q.ofInt 2592000000) ∧
    parseDuration "1 sec" = .ok (Q.ofInt 1000) ∧
    parseDuration "2 Days" = .ok (Q.ofInt 172800000) ∧
    parseDuration "3 MONTH" = .ok (Q.ofInt 7776000000) ∧
    parseDuration "2h 30m" = .ok (Q.ofInt 9000000) ∧
    parseDuration "1 min" =
      .error "Invalid trailing content \"in\" in \"1 min\"." ∧
    parseDuration "1 minute" =
      .error "Invalid trailing content \"inute\" in \"1 minute\"." ∧
    parseDuration "10 MINS" =
      .error "Invalid trailing content \"INS\" in \"10 MINS\"." ∧
    alookup DURATION_UNIT_MULTIPLIERS "min" = some msMinute ∧
    alookup DURATION_UNIT_MULTIPLIERS "minutes" = some msMinute := by decide


/-- C2: whenever the proxy is asked for a formula that is currently being
evaluated (a cyclic reference: the name is in the in-progress set, not yet
memoized, and has a definition), the access raises exactly the error
`Circular formula reference detected for "<name>"`.  Concretely, the spec's
scenario — formulas `a: formula.b + 1`, `b: formula.a + 1` and a column
`formula.a` — produces an error chain containing that message for `"a"`. -/
theorem c2_circular_reference :
    (∀ (defs : List (String × FDef)) (parse : String → Option FExpr)
       (fuel : Nat) (name : String) (st : FState),
      0 < fuel → alookup st.cache name = none →
      (alookup defs name).isSome = true → memStr name st.evaluating = true →
      formulaProxyGet defs parse fuel name st =
        .error ["Circular formula reference detected for \"" ++ name ++ "\""]) ∧
    errChainContains
      (evaluateExpr defsAB parseAB 32 "formula.a" "column \"formula.a\"" ⟨[], []⟩)
      "Circular formula reference detected for \"a\"" = true := by
  constructor
  · intro defs parse fuel name st hf h1 h2 h3
    cases fuel with
    | zero => exact absurd hf (by omega)
    | succ n =>
      simp [formulaProxyGet, runE, h1, h2, h3]
  · decide

theorem c2_witness :
    formulaProxyGet defsAB parseAB 3 "a" ⟨[], ["a"]⟩ =
      .error ["Circular formula reference detected for \"" ++ "a" ++ "\""] :=
  c2_circular_reference.1 defsAB parseAB 3 "a" ⟨[], ["a"]⟩
    (by omega) (by decide) (by decide) (by decide)

/-- C3 counterexample: accessing a formula whose definition is MISSING
returns `undefined` but stores nothing in the memo table (the cache stays
empty), contradicting the claim that the first successful access stores
`undefined` when the definition is missing. -/
theorem c3_counterexample_missing_not_cached :
    formulaProxyGet ([] : List (String × FDef)) parseAB 5 "a" ⟨[], []⟩ =
      .ok (.vundefined, ⟨[], []⟩) := by decide

/-- C3 (amended): formula evaluation is memoized per file — a cached access
returns the cached value (including a cached `undefined`) with the state
unchanged and without consulting the definitions or evaluating anything; a
MISSING definition returns `undefined` without storing anything; a
non-string or blank definition stores `undefined` in the memo table; and
every first successful access of a defined formula leaves its result in the
memo table. -/
theorem c3_memoization :
    (∀ (defs : List (String × FDef)) (parse : String → Option FExpr)
       (fuel : Nat) (k : String) (st : FState) (v : JsValue),
      0 < fuel → alookup st.cache k = some v →
      formulaProxyGet defs parse fuel k st = .ok (v, st)) ∧
    (∀ (defs : List (String × FDef)) (parse : String → Option FExpr)
       (fuel : Nat) (k : String) (st : FState),
      0 < fuel → alookup st.cache k = none → alookup defs k = none →
      formulaProxyGet defs parse fuel k st = .ok (.vundefined, st)) ∧
    (∀ (defs : List (String × FDef)) (parse : String → Option FExpr)
       (fuel : Nat) (k : String) (st : FState),
      0 < fuel → alookup st.cache k = none →
      memStr k st.evaluating = false →
      (alookup defs k = some .nonStr ∨
        (∃ s, alookup defs k = some (.src s) ∧ jsTrim s = "")) →
      formulaProxyGet defs parse fuel k st =
        .ok (.vundefined, ⟨(k, .vundefined) :: st.cache, st.evaluating⟩)) ∧
    (∀ (defs : List (String × FDef)) (parse : String → Option FExpr)
       (fuel : Nat) (k : String) (st : FState) (v : JsValue) (st' : FState),
      alookup st.cache k = none → (alookup defs k).isSome = true →
      formulaProxyGet defs parse fuel k st = .ok (v, st') →
      alookup st'.cache k = some v) := by
  refine ⟨?_, ?_, ?_, ?_⟩
  · intro defs parse fuel k st v hf h1
    cases fuel with
    | zero => exact absurd hf (by omega)
    | succ n => simp [formulaProxyGet, runE, h1]
  · intro defs parse fuel k st hf h1 h2
    cases fuel with
    | zero => exact absurd hf (by omega)
    | succ n => simp [formulaProxyGet, runE, h1, h2]
  · intro defs parse fuel k st hf h1 hmem hdef
    cases fuel with
    | zero => exact absurd hf (by omega)
    | succ n =>
      rcases hdef with hd | ⟨s, hd, hs⟩
      · simp [formulaProxyGet, runE, h1, hmem, hd]
      · simp [formulaProxyGet, runE, h1, hmem, hd, hs]
  · intro defs parse fuel k st v st' h1 h2 hres
    cases fuel with
    | zero => exact Except.noConfusion hres
    | succ n =>
      rw [show formulaProxyGet defs parse (n + 1) k st =
            runE defs parse (n + 1) (.tget k) st from rfl] at hres
      rw [show runE defs parse (n + 1) (.tget k) st =
            (match alookup st.cache k with
             | some v => .ok (v, st)
             | none =>
               if (alookup defs k).isSome = false then .ok (.vundefined, st)
               else if memStr k st.evaluating then
                 .error ["Circular formula reference detected for \"" ++ k ++ "\""]
               else
                 match alookup defs k with
                 | none => .ok (.vundefined, st)
                 | some .nonStr =>
                   .ok (.vundefined, { st with cache := (k, .vundefined) :: st.cache })
                 | some (.src expression) =>
                   if jsTrim expression = "" then
                     .ok (.vundefined, { st with cache := (k, .vundefined) :: st.cache })
                   else
                     let st1 : FState := { st with evaluating := k :: st.evaluating }
                     match runE defs parse n
                         (.teval expression ("formula \"" ++ k ++ "\"")) st1 with
                     | .error e =>
                       .error (("Failed to evaluate formula \"" ++ k ++ "\"") :: e)
                     | .ok (v, st2) =>
                       .ok (v, { cache := (k, v) :: st2.cache,
                                 evaluating := st2.evaluating.filter (fun x => x ≠ k) })) from
        rfl] at hres
      rw [h1, h2] at hres
      simp only [Bool.true_eq_false, if_false] at hres
      by_cases hmem : memStr k st.evaluating
      · rw [if_pos hmem] at hres
        exact Except.noConfusion hres
      · rw [if_neg hmem] at hres
        cases hd : alookup defs k with
        | none => rw [hd] at h2; exact Bool.noConfusion h2
        | some d =>
          rw [hd] at hres
          cases d with
          | nonStr =>
            have hres' : (Except.ok ((JsValue.vundefined : JsValue),
                ({ st with cache := (k, JsValue.vundefined) :: st.cache } : FState)) :
                Except (List String) (JsValue × FState)) = .ok (v, st') := hres
            injection hres' with h
            rw [Prod.mk.injEq] at h
            obtain ⟨hv, hst⟩ := h
            subst hv
            rw [← hst]
            simp [alookup]
          | src expression =>
            have hres' :
                (if jsTrim expression = "" then
                  (Except.ok ((JsValue.vundefined : JsValue),
                    ({ st with cache := (k, JsValue.vundefined) :: st.cache } : FState)) :
                    Except (List String) (JsValue × FState))
                else
                  match runE defs parse n
                      (.teval expression ("formula \"" ++ k ++ "\""))
                      { st with evaluating := k :: st.evaluating } with
                  | .error e =>
                    .error (("Failed to evaluate formula \"" ++ k ++ "\"") :: e)
                  | .ok (v2, st2) =>
                    .ok (v2, { cache := (k, v2) :: st2.cache,
                               evaluating := st2.evaluating.filter (fun x => x ≠ k) })) =
                .ok (v, st') := hres
            by_cases hblank : jsTrim expression = ""
            · rw [if_pos hblank] at hres'
              injection hres' with h
              rw [Prod.mk.injEq] at h
              obtain ⟨hv, hst⟩ := h
              subst hv
              rw [← hst]
              simp [alookup]
            · rw [if_neg hblank] at hres'
              cases hrun : runE defs parse n
                  (.teval expression ("formula \"" ++ k ++ "\""))
                  { st with evaluating := k :: st.evaluating } with
              | error e =>
                rw [hrun] at hres'
                exact Except.noConfusion hres'
              | ok r =>
                rw [hrun] at hres'
                obtain ⟨v2, st2⟩ := r
                injection hres' with h
                rw [Prod.mk.injEq] at h
                obtain ⟨hv, hst⟩ := h
                subst hv
                rw [← hst]
                simp [alookup]

theorem c3_witness :
    formulaProxyGet defsAB parseAB 2 "k" ⟨[("k", .str "v")], []⟩ =
      .ok (.str "v", ⟨[("k", .str "v")], []⟩) :=
  c3_memoization.1 defsAB parseAB 2 "k" ⟨[("k", .str "v")], []⟩ (.str "v")
    (by omega) (by decide)


/-! ## Scope precedence (C5) -/

theorem alookup_append_left {α : Type} (sc l : List (String × α)) (k : String)
    (x : α) (h : alookup sc k = some x) : alookup (sc ++ l) k = some x := by
  induction sc with
  | nil => exact Option.noConfusion h
  | cons hd tl ih =>
    obtain ⟨k1, v1⟩ := hd
    rw [show alookup ((k1, v1) :: tl) k =
          (if k1 = k then some v1 else alookup tl k) from rfl] at h
    rw [List.cons_append,
      show alookup ((k1, v1) :: (tl ++ l)) k =
        (if k1 = k then some v1 else alookup (tl ++ l) k) from rfl]
    by_cases hk : k1 = k
    · rwa [if_pos hk] at h ⊢
    · rw [if_neg hk] at h ⊢
      exact ih h

theorem alookup_append_self {α : Type} (sc : List (String × α)) (k : String)
    (x : α) (h : alookup sc k = none) : alookup (sc ++ [(k, x)]) k = some x := by
  induction sc with
  | nil => simp [alookup]
  | cons hd tl ih =>
    obtain ⟨k1, v1⟩ := hd
    rw [show alookup ((k1, v1) :: tl) k =
          (if k1 = k then some v1 else alookup tl k) from rfl] at h
    by_cases hk : k1 = k
    · rw [if_pos hk] at h
      exact Option.noConfusion h
    · rw [if_neg hk] at h
      rw [List.cons_append,
        show alookup ((k1, v1) :: (tl ++ [(k, x)])) k =
          (if k1 = k then some v1 else alookup (tl ++ [(k, x)]) k) from rfl,
        if_neg hk]
      exact ih h

theorem alookup_append_other {α : Type} (sc : List (String × α)) (k k2 : String)
    (x : α) (hne : k2 ≠ k) : alookup (sc ++ [(k2, x)]) k = alookup sc k := by
  induction sc with
  | nil => simp [alookup, hne]
  | cons hd tl ih =>
    obtain ⟨k1, v1⟩ := hd
    rw [List.cons_append,
      show alookup ((k1, v1) :: (tl ++ [(k2, x)])) k =
        (if k1 = k then some v1 else alookup (tl ++ [(k2, x)]) k) from rfl,
      show alookup ((k1, v1) :: tl) k =
        (if k1 = k then some v1 else alookup tl k) from rfl]
    by_cases hk : k1 = k
    · rw [if_pos hk, if_pos hk]
    · rw [if_neg hk, if_neg hk]
      exact ih

/-- Every fold step of `buildScope` only ever appends entries, so it
preserves present bindings. -/
theorem foldl_extends_lookup {β : Type}
    (g : List (String × SVal) → β → List (String × SVal))
    (hg : ∀ sc e, ∃ l, g sc e = sc ++ l) :
    ∀ (es : List β) (sc : List (String × SVal)) (k : String) (x : SVal),
      alookup sc k = some x → alookup (es.foldl g sc) k = some x := by
  intro es
  induction es with
  | nil => intro sc k x h; exact h
  | cons e tl ih =>
    intro sc k x h
    rw [List.foldl_cons]
    obtain ⟨l, hl⟩ := hg sc e
    exact ih (g sc e) k x (hl ▸ alookup_append_left sc l k x h)

theorem fmStep_extends (sc : List (String × SVal)) (kv : String × JsValue) :
    ∃ l, fmStep sc kv = sc ++ l := by
  unfold fmStep
  by_cases h : (!hasKey sc kv.1 && isValidIdentifier kv.1 &&
      !memStr kv.1 globalFunctionNames) = true
  · exact ⟨[(kv.1, .fmVal kv.2)], by rw [if_pos h]⟩
  · exact ⟨[], by rw [if_neg h, List.append_nil]⟩

theorem addIfAbsent_extends (sc : List (String × SVal)) (k : String) (v : SVal) :
    ∃ l, addIfAbsent sc k v = sc ++ l := by
  unfold addIfAbsent
  by_cases h : hasKey sc k = true
  · exact ⟨[], by rw [if_pos h, List.append_nil]⟩
  · exact ⟨[(k, v)], by rw [if_neg h]⟩

theorem gfStep_extends (sc : List (String × SVal)) (k : String) :
    ∃ l, gfStep sc k = sc ++ l := by
  obtain ⟨l1, h1⟩ := addIfAbsent_extends sc k (.gfun k)
  cases ha : aliasOf k with
  | none => exact ⟨l1, by simp only [gfStep, ha]; exact h1⟩
  | some a =>
    obtain ⟨l2, h2⟩ := addIfAbsent_extends (addIfAbsent sc k (.gfun k)) a (.gfun k)
    exact ⟨l1 ++ l2, by simp only [gfStep, ha]; rw [h2, h1, List.append_assoc]⟩

theorem biStep_extends (sc : List (String × SVal)) (k : String) :
    ∃ l, biStep sc k = sc ++ l := addIfAbsent_extends sc k (.builtin k)

/-- The promoted-frontmatter pass binds the first frontmatter value of a
valid, unreserved, non-global key that is not already in scope. -/
theorem fmFold_lookup (k : String) (v : JsValue)
    (hvalid : isValidIdentifier k = true)
    (hglob : memStr k globalFunctionNames = false) :
    ∀ (fm : List (String × JsValue)) (sc : List (String × SVal)),
      hasKey sc k = false → alookup fm k = some v →
      alookup (fm.foldl fmStep sc) k = some (.fmVal v) := by
  intro fm
  induction fm with
  | nil => intro sc _ hfm; exact Option.noConfusion hfm
  | cons hd tl ih =>
    intro sc hsc hfm
    obtain ⟨k1, v1⟩ := hd
    rw [List.foldl_cons]
    by_cases hk : k1 = k
    · rw [show alookup ((k1, v1) :: tl) k =
            (if k1 = k then some v1 else alookup tl k) from rfl,
        if_pos hk] at hfm
      have hv : v1 = v := by injection hfm
      have hpair : fmStep sc (k1, v1) =
          (if !hasKey sc k1 && isValidIdentifier k1 &&
              !memStr k1 globalFunctionNames then
            sc ++ [(k1, .fmVal v1)]
          else sc) := rfl
      have hcond : (!hasKey sc k1 && isValidIdentifier k1 &&
          !memStr k1 globalFunctionNames) = true := by
        rw [hk]
        simp [hsc, hvalid, hglob]
      have hbase : alookup (fmStep sc (k1, v1)) k = some (.fmVal v) := by
        rw [hpair, if_pos hcond, hk, ← hv]
        apply alookup_append_self
        unfold hasKey at hsc
        cases hlc : alookup sc k with
        | none => rfl
        | some y => rw [hlc] at hsc; exact Bool.noConfusion hsc
      exact foldl_extends_lookup fmStep fmStep_extends tl _ k _ hbase
    · rw [show alookup ((k1, v1) :: tl) k =
            (if k1 = k then some v1 else alookup tl k) from rfl,
        if_neg hk] at hfm
      refine ih (fmStep sc (k1, v1)) ?_ hfm
      have hpair : fmStep sc (k1, v1) =
          (if !hasKey sc k1 && isValidIdentifier k1 &&
              !memStr k1 globalFunctionNames then
            sc ++ [(k1, .fmVal v1)]
          else sc) := rfl
      rw [hpair]
      by_cases hcond : (!hasKey sc k1 && isValidIdentifier k1 &&
          !memStr k1 globalFunctionNames) = true
      · rw [if_pos hcond]
        unfold hasKey
        rw [alookup_append_other sc k k1 _ hk]
        exact hsc
      · rw [if_neg hcond]
        exact hsc

theorem alookup_map_overwrite (sc : List (String × SVal)) (k : String)
    (v : SVal) :
    alookup (sc.map (fun kv => if kv.1 = k then (kv.1, v) else kv)) k =
      (alookup sc k).map (fun _ => v) := by
  induction sc with
  | nil => rfl
  | cons hd tl ih =>
    obtain ⟨k1, v1⟩ := hd
    rw [List.map_cons]
    by_cases hk : k1 = k
    · subst hk
      show alookup ((if k1 = k1 then (k1, v) else (k1, v1)) :: _) k1 = _
      rw [if_pos rfl]
      show (if k1 = k1 then some v else _) = _
      rw [if_pos rfl]
      show _ = Option.map _ (if k1 = k1 then some v1 else alookup tl k1)
      rw [if_pos rfl]
      rfl
    · show alookup ((if k1 = k then (k1, v) else (k1, v1)) :: _) k = _
      rw [if_neg hk]
      show (if k1 = k then some v1 else _) = _
      rw [if_neg hk]
      show _ = Option.map _ (if k1 = k then some v1 else alookup tl k)
      rw [if_neg hk]
      exact ih

theorem alookup_map_other (sc : List (String × SVal)) (k k2 : String)
    (v : SVal) (hne : k ≠ k2) :
    alookup (sc.map (fun kv => if kv.1 = k2 then (kv.1, v) else kv)) k =
      alookup sc k := by
  induction sc with
  | nil => rfl
  | cons hd tl ih =>
    obtain ⟨k1, v1⟩ := hd
    rw [List.map_cons]
    by_cases hk2 : k1 = k2
    · have hk : k1 ≠ k := by
        rw [hk2]; exact fun h => hne h.symm
      show alookup ((if k1 = k2 then (k1, v) else (k1, v1)) :: _) k = _
      rw [if_pos hk2]
      show (if k1 = k then some v else _) = _
      rw [if_neg hk]
      show _ = (if k1 = k then some v1 else alookup tl k)
      rw [if_neg hk]
      exact ih
    · show alookup ((if k1 = k2 then (k1, v) else (k1, v1)) :: _) k = _
      rw [if_neg hk2]
      show (if k1 = k then some v1 else _) = _
      by_cases hk : k1 = k
      · rw [if_pos hk]
        show _ = (if k1 = k then some v1 else alookup tl k)
        rw [if_pos hk]
      · rw [if_neg hk]
        show _ = (if k1 = k then some v1 else alookup tl k)
        rw [if_neg hk]
        exact ih

theorem alookup_setKey_self (sc : List (String × SVal)) (k : String)
    (v : SVal) : alookup (setKey sc k v) k = some v := by
  unfold setKey
  by_cases h : hasKey sc k = true
  · rw [if_pos h, alookup_map_overwrite]
    unfold hasKey at h
    cases hl : alookup sc k with
    | none => rw [hl] at h; exact absurd h (by simp)
    | some y => rfl
  · rw [if_neg h]
    apply alookup_append_self
    unfold hasKey at h
    cases hl : alookup sc k with
    | none => rfl
    | some y => rw [hl] at h; exact absurd (by simp) h

theorem alookup_setKey_other (sc : List (String × SVal)) (k k2 : String)
    (v : SVal) (hne : k ≠ k2) :
    alookup (setKey sc k2 v) k = alookup sc k := by
  unfold setKey
  by_cases h : hasKey sc k2 = true
  · rw [if_pos h]
    exact alookup_map_other sc k k2 v hne
  · rw [if_neg h]
    exact alookup_append_other sc k k2 v (fun hh => hne hh.symm)

set_option maxRecDepth 8192 in
/-- C5 counterexample: a file whose frontmatter has key `Math` DOES get it
promoted — the scope resolves `Math` to the frontmatter value, not to the
built-in namespace. -/
theorem c5_counterexample :
    scopeLookup (buildScope [("Math", .str "x")]) "Math" =
      some (.fmVal (.str "x")) := by decide

/-- C5 (amended): `buildEvaluationState` inserts, in order: the five
explicit entries, then promoted frontmatter identifiers, then global
functions and their aliases, then built-in namespaces — earlier insertions
winning on key collision — and finally overwrites `scope.formula` with the
formula proxy unconditionally.  Hence every frontmatter key other than
`formula` that is a valid unreserved identifier, is not one of the five
explicit keys and is not a global-function name binds its (first)
frontmatter value — even when it equals a built-in namespace name such as
`Math`, which the claim said would take precedence — while the identifier
`formula` always resolves to the proxy, even when a frontmatter key named
`formula` was promoted earlier. -/
theorem c5_scope_precedence :
    (∀ (fm : List (String × JsValue)) (k : String) (v : JsValue),
        isValidIdentifier k = true → memStr k globalFunctionNames = false →
        hasKey specialScopeEntries k = false → k ≠ "formula" →
        alookup fm k = some v →
        scopeLookup (buildScope fm) k = some (.fmVal v)) ∧
    (∀ fm : List (String × JsValue),
        scopeLookup (buildScope fm) "formula" = some .proxy) := by
  constructor
  · intro fm k v hvalid hglob hspec hnf hfm
    unfold buildScope scopeLookup
    rw [alookup_setKey_other _ k "formula" _ hnf]
    have h1 := fmFold_lookup k v hvalid hglob fm specialScopeEntries hspec hfm
    exact foldl_extends_lookup biStep biStep_extends builtinScopeNames _ k _
      (foldl_extends_lookup gfStep gfStep_extends globalFunctionNames _ k _ h1)
  · intro fm
    unfold buildScope scopeLookup
    exact alookup_setKey_self _ "formula" .proxy

theorem c5_witness :
    isValidIdentifier "Math" = true ∧
    scopeLookup (buildScope [("size", .str "s"), ("Math", .str "x")]) "Math" =
      some (.fmVal (.str "x")) ∧
    scopeLookup (buildScope [("formula", .str "shadowed")]) "formula" =
      some .proxy :=
  ⟨by decide,
   c5_scope_precedence.1 [("size", .str "s"), ("Math", .str "x")] "Math"
     (.str "x") (by decide) (by decide) (by decide) (by decide) (by decide),
   c5_scope_precedence.2 [("formula", .str "shadowed")]⟩


/-! ## The source rewrite (C8) -/

theorem tryAliasAt_eq (prev : Option Char) (rest : List Char) :
    tryAliasAt prev rest =
      (if aliasCond prev rest nameIF then some (aliasIF, 2)
       else if aliasCond prev rest nameFILE then some (aliasFILE, 4)
       else none) := by
  unfold tryAliasAt aliasEntries
  by_cases h1 : aliasCond prev rest nameIF
  · simp only [List.find?, h1]
    rfl
  · have h1' : aliasCond prev rest nameIF = false := by simpa using h1
    by_cases h2 : aliasCond prev rest nameFILE
    · simp only [List.find?, h1', h2]
      rfl
    · have h2' : aliasCond prev rest nameFILE = false := by simpa using h2
      simp only [List.find?, h1', h2']
      rfl

theorem stateAt_append (pre : List Char) (c : Char) :
    stateAt (pre ++ [c]) = quoteStep (stateAt pre) c := by
  simp [stateAt, List.foldl_append]

theorem getLast?_concat2 (pre : List Char) (c : Char) :
    (pre ++ [c]).getLast? = some c := by simp

/-- The threaded scanner computes the position-based rewrite: at the split
`pre ++ post`, running the scanner with the previous character and the quote
state of `pre` produces the position-based result. -/
theorem normGo_eq_specGo :
    ∀ (f : Nat) (pre post : List Char),
      normGo f pre.getLast? (stateAt pre) post = specGo f pre post := by
  intro f
  induction f with
  | zero => intro pre post; rfl
  | succ n ih =>
    intro pre post
    cases post with
    | nil =>
      cases stateAt pre <;> rfl
    | cons c cs =>
      have hspec : specGo (n + 1) pre (c :: cs) =
          (if replCond pre (c :: cs) nameIF then
            aliasIF ++ specGo n (pre ++ nameIF) ((c :: cs).drop 2)
          else if replCond pre (c :: cs) nameFILE then
            aliasFILE ++ specGo n (pre ++ nameFILE) ((c :: cs).drop 4)
          else c :: specGo n (pre ++ [c]) cs) := rfl
      have hnext := fun (c' : Char) => ih (pre ++ [c']) cs
      cases hst : stateAt pre with
      | inS esc =>
        rw [show normGo (n + 1) pre.getLast? (.inS esc) (c :: cs) =
              c :: normGo n (some c)
                (if esc then .inS false else if c = chBS then .inS true
                 else if c = chSQ then .outside else .inS false) cs from rfl,
          hspec]
        have hrc1 : replCond pre (c :: cs) nameIF = false := by
          simp [replCond, hst]
        have hrc2 : replCond pre (c :: cs) nameFILE = false := by
          simp [replCond, hst]
        simp only [hrc1, hrc2, Bool.false_eq_true, if_false]
        congr 1
        have hthis := hnext c
        rw [stateAt_append, hst, getLast?_concat2] at hthis
        exact hthis
      | inD esc =>
        rw [show normGo (n + 1) pre.getLast? (.inD esc) (c :: cs) =
              c :: normGo n (some c)
                (if esc then .inD false else if c = chBS then .inD true
                 else if c = chDQ then .outside else .inD false) cs from rfl,
          hspec]
        have hrc1 : replCond pre (c :: cs) nameIF = false := by
          simp [replCond, hst]
        have hrc2 : replCond pre (c :: cs) nameFILE = false := by
          simp [replCond, hst]
        simp only [hrc1, hrc2, Bool.false_eq_true, if_false]
        congr 1
        have hthis := hnext c
        rw [stateAt_append, hst, getLast?_concat2] at hthis
        exact hthis
      | inT esc =>
        rw [show normGo (n + 1) pre.getLast? (.inT esc) (c :: cs) =
              c :: normGo n (some c)
                (if esc then .inT false else if c = chBS then .inT true
                 else if c = chBT then .outside else .inT false) cs from rfl,
          hspec]
        have hrc1 : replCond pre (c :: cs) nameIF = false := by
          simp [replCond, hst]
        have hrc2 : replCond pre (c :: cs) nameFILE = false := by
          simp [replCond, hst]
        simp only [hrc1, hrc2, Bool.false_eq_true, if_false]
        congr 1
        have hthis := hnext c
        rw [stateAt_append, hst, getLast?_concat2] at hthis
        exact hthis
      | outside =>
        rw [show normGo (n + 1) pre.getLast? .outside (c :: cs) =
              (if c = chSQ then c :: normGo n (some c) (.inS false) cs
               else if c = chDQ then c :: normGo n (some c) (.inD false) cs
               else if c = chBT then c :: normGo n (some c) (.inT false) cs
               else
                 match tryAliasAt pre.getLast? (c :: cs) with
                 | some p =>
                   p.1 ++ normGo n ((c :: cs).take p.2).getLast? .outside
                     ((c :: cs).drop p.2)
                 | none => c :: normGo n (some c) .outside cs) from rfl,
          hspec]
        by_cases hc1 : c = chSQ
        · subst hc1
          have hrc1 : replCond pre (chSQ :: cs) nameIF = false := rfl
          have hrc2 : replCond pre (chSQ :: cs) nameFILE = false := rfl
          simp only [hrc1, hrc2, Bool.false_eq_true, if_false, eq_self_iff_true, if_true]
          congr 1
          have hthis := hnext chSQ
          rw [stateAt_append, hst, getLast?_concat2] at hthis
          exact hthis
        · rw [if_neg hc1]
          by_cases hc2 : c = chDQ
          · subst hc2
            have hrc1 : replCond pre (chDQ :: cs) nameIF = false := rfl
            have hrc2 : replCond pre (chDQ :: cs) nameFILE = false := rfl
            simp only [hrc1, hrc2, Bool.false_eq_true, if_false, eq_self_iff_true, if_true]
            congr 1
            have hthis := hnext chDQ
            rw [stateAt_append, hst, getLast?_concat2] at hthis
            have hq : quoteStep QState.outside chDQ = .inD false := rfl
            rw [hq] at hthis
            exact hthis
          · rw [if_neg hc2]
            by_cases hc3 : c = chBT
            · subst hc3
              have hrc1 : replCond pre (chBT :: cs) nameIF = false := rfl
              have hrc2 : replCond pre (chBT :: cs) nameFILE = false := rfl
              simp only [hrc1, hrc2, Bool.false_eq_true, if_false, eq_self_iff_true, if_true]
              congr 1
              have hthis := hnext chBT
              rw [stateAt_append, hst, getLast?_concat2] at hthis
              have hq : quoteStep QState.outside chBT = .inT false := rfl
              rw [hq] at hthis
              exact hthis
            · rw [if_neg hc3, tryAliasAt_eq]
              by_cases hIf : aliasCond pre.getLast? (c :: cs) nameIF
              · rw [if_pos hIf]
                have hrc1 : replCond pre (c :: cs) nameIF = true := by
                  simp [replCond, hIf, hst]
                rw [hspec.symm, hspec]
                simp only [hrc1, if_pos rfl]
                have hlead : leadsWith nameIF (c :: cs) = true := by
                  have := hIf
                  unfold aliasCond at this
                  simp only [Bool.and_eq_true] at this
                  exact this.1.1.1.1
                rw [show leadsWith nameIF (c :: cs) =
                      (decide ('i' = c) && leadsWith ['f'] cs) from rfl,
                  Bool.and_eq_true] at hlead
                obtain ⟨hci, hrest⟩ := hlead
                have hci' : 'i' = c := of_decide_eq_true hci
                cases cs with
                | nil => exact Bool.noConfusion hrest
                | cons c2 cs2 =>
                  rw [show leadsWith ['f'] (c2 :: cs2) =
                        (decide ('f' = c2) && leadsWith [] cs2) from rfl,
                    Bool.and_eq_true] at hrest
                  have hcf : 'f' = c2 := of_decide_eq_true hrest.1
                  subst hci'
                  subst hcf
                  congr 1
                  have hthis := ih (pre ++ nameIF) cs2
                  have hg : (pre ++ nameIF).getLast? = some 'f' := by
                    rw [show pre ++ nameIF = (pre ++ ['i']) ++ ['f'] by
                          simp [nameIF]]
                    exact getLast?_concat2 _ _
                  have hs2 : stateAt (pre ++ nameIF) = .outside := by
                    rw [show pre ++ nameIF = (pre ++ ['i']) ++ ['f'] by
                          simp [nameIF]]
                    rw [stateAt_append, stateAt_append, hst]
                    rfl
                  rw [hg, hs2] at hthis
                  exact hthis
              · rw [if_neg hIf]
                have hrc1 : replCond pre (c :: cs) nameIF = false := by
                  simp [replCond, hIf]
                by_cases hFile : aliasCond pre.getLast? (c :: cs) nameFILE
                · rw [if_pos hFile]
                  have hrc2 : replCond pre (c :: cs) nameFILE = true := by
                    simp [replCond, hFile, hst]
                  simp only [hrc1, hrc2, Bool.false_eq_true, if_false, eq_self_iff_true, if_true]
                  have hlead : leadsWith nameFILE (c :: cs) = true := by
                    have := hFile
                    unfold aliasCond at this
                    simp only [Bool.and_eq_true] at this
                    exact this.1.1.1.1
                  rw [show leadsWith nameFILE (c :: cs) =
                        (decide ('f' = c) && leadsWith ['i', 'l', 'e'] cs) from rfl,
                    Bool.and_eq_true] at hlead
                  obtain ⟨hcf, hrest⟩ := hlead
                  have hcf' : 'f' = c := of_decide_eq_true hcf
                  cases cs with
                  | nil => exact Bool.noConfusion hrest
                  | cons c2 cs2 =>
                    rw [show leadsWith ['i', 'l', 'e'] (c2 :: cs2) =
                          (decide ('i' = c2) && leadsWith ['l', 'e'] cs2) from rfl,
                      Bool.and_eq_true] at hrest
                    obtain ⟨hc2e, hrest2⟩ := hrest
                    have hc2' : 'i' = c2 := of_decide_eq_true hc2e
                    cases cs2 with
                    | nil => exact Bool.noConfusion hrest2
                    | cons c3 cs3 =>
                      rw [show leadsWith ['l', 'e'] (c3 :: cs3) =
                            (decide ('l' = c3) && leadsWith ['e'] cs3) from rfl,
                        Bool.and_eq_true] at hrest2
                      obtain ⟨hc3e, hrest3⟩ := hrest2
                      have hc3' : 'l' = c3 := of_decide_eq_true hc3e
                      cases cs3 with
                      | nil => exact Bool.noConfusion hrest3
                      | cons c4 cs4 =>
                        rw [show leadsWith ['e'] (c4 :: cs4) =
                              (decide ('e' = c4) && leadsWith [] cs4) from rfl,
                          Bool.and_eq_true] at hrest3
                        have hc4' : 'e' = c4 := of_decide_eq_true hrest3.1
                        subst hcf'
                        subst hc2'
                        subst hc3'
                        subst hc4'
                        congr 1
                        have hthis := ih (pre ++ nameFILE) cs4
                        have hg : (pre ++ nameFILE).getLast? = some 'e' := by
                          rw [show pre ++ nameFILE =
                                (pre ++ ['f', 'i', 'l']) ++ ['e'] by
                                simp [nameFILE]]
                          exact getLast?_concat2 _ _
                        have hs2 : stateAt (pre ++ nameFILE) = .outside := by
                          rw [show pre ++ nameFILE =
                                (((pre ++ ['f']) ++ ['i']) ++ ['l']) ++ ['e'] by
                                simp [nameFILE]]
                          rw [stateAt_append, stateAt_append, stateAt_append,
                            stateAt_append, hst]
                          rfl
                        rw [hg, hs2] at hthis
                        exact hthis
                · rw [if_neg hFile]
                  have hrc2 : replCond pre (c :: cs) nameFILE = false := by
                    simp [replCond, hFile]
                  simp only [hrc1, hrc2, Bool.false_eq_true, if_false]
                  congr 1
                  have hthis := hnext c
                  rw [stateAt_append, hst, getLast?_concat2] at hthis
                  have hq : quoteStep QState.outside c = .outside := by
                    simp [quoteStep, hc1, hc2, hc3]
                  rw [hq] at hthis
                  exact hthis

/-- C8: the pre-parse source rewrite replaces a bare `if`/`file` occurrence
with `_if`/`_fileFn` exactly at positions outside single-, double- and
backtick-quoted spans that are not preceded by an identifier character or a
dot, not followed by an identifier character, and whose next non-whitespace
character is `(`; all other characters — member accesses like `file.name`
and quoted text included — are emitted unchanged. -/
theorem c8_normalize_rewrite :
    ∀ expression : String,
      normalizeExpressionSource expression = specNormalize expression := by
  intro expression
  unfold normalizeExpressionSource specNormalize
  exact congrArg String.mk
    (normGo_eq_specGo (expression.data.length + 1) [] expression.data)

end MBase
